import Mathlib

/-!
Verification of the lagged-feature tabularization core of the repository:
`darts/utils/data/tabularization.py`, functions `_create_lagged_data` and
`_add_static_covariates`.

The embedding models pandas data frames as lists of rows over `Option ℚ`
(`none` is the missing value NaN), with an integer timestamp index and a
column-label list.  All operations used by the source (`shift`, column
renaming, `concat(axis=1)`, `reindex`, `dropna`, slicing, `np.split`,
`np.tile`, F-order reshape) are given executable definitions below, and the
two source functions are translated statement by statement.
-/

/-- A cell value of a data frame: `none` models NaN. -/
abbrev Val := Option ℚ

/-- Structured column label: the source tracks provenance by renaming columns
to strings such as `"{comp}_target_lag{lag}"`, `"{comp}_past_cov_lag{lag}"`,
`"{comp}_future_cov_lag{lag}"` and `"{comp}_horizon_lag{k}"`.  The label is
represented by its three parts, which the string encodes injectively. -/
structure ColTag where
  comp : String
  src : String
  lag : Int
deriving DecidableEq, Repr

/-- A pandas data frame: a timestamp index, column labels and one row of
values per index entry. -/
structure DF (α : Type) where
  index : List Int
  cols : List α
  data : List (List Val)
deriving DecidableEq, Repr

/-- Well-formed frame: one data row per index entry and one cell per column. -/
def DFwf (df : DF α) : Prop :=
  df.data.length = df.index.length ∧ ∀ r ∈ df.data, r.length = df.cols.length

/-- `df.shift(p)`: row `i` of the result holds row `i - p` of the original
data (all-NaN when out of range); the index is unchanged. -/
def dfShift (p : Int) (df : DF α) : DF α :=
  { df with data :=
      (List.range df.index.length).map (fun (i : Nat) =>
        let j : Int := (i : Int) - p
        if 0 ≤ j ∧ j < (df.index.length : Int) then
          df.data.getD j.toNat (List.replicate df.cols.length none)
        else List.replicate df.cols.length none) }

/-- `df.rename(columns=f)`. -/
def dfRelabel (f : α → β) (df : DF α) : DF β :=
  ⟨df.index, df.cols.map f, df.data⟩

/-- Sorted union of two (strictly increasing) timestamp indices, i.e.
`Index.union`. -/
def mergeUnion : List Int → List Int → List Int
  | [], ys => ys
  | x :: xs, [] => x :: xs
  | x :: xs, y :: ys =>
    if x < y then x :: mergeUnion xs (y :: ys)
    else if y < x then y :: mergeUnion (x :: xs) ys
    else x :: mergeUnion xs ys
termination_by a b => a.length + b.length

/-- The row of `df` labelled by timestamp `t` (all-NaN when absent). -/
def dfRowAt (df : DF α) (t : Int) : List Val :=
  match df.index.findIdx? (fun u => u == t) with
  | some i => df.data.getD i (List.replicate df.cols.length none)
  | none => List.replicate df.cols.length none

/-- `df.reindex(newIdx)`: label-aligned row selection, missing rows NaN. -/
def dfReindex (newIdx : List Int) (df : DF α) : DF α :=
  ⟨newIdx, df.cols, newIdx.map (fun t => dfRowAt df t)⟩

/-- `pd.concat(dfs, axis=1)`: columns are concatenated in order; when all
indices coincide rows are joined positionally, otherwise rows are aligned by
timestamp on the sorted union of the indices (outer join). -/
def concatCols (dfs : List (DF α)) : DF α :=
  match dfs with
  | [] => ⟨[], [], []⟩
  | d :: rest =>
    let allCols := (d :: rest).flatMap (fun e => e.cols)
    if rest.all (fun e => e.index == d.index) then
      ⟨d.index, allCols,
        (List.range d.index.length).map (fun i =>
          (d :: rest).flatMap (fun e =>
            e.data.getD i (List.replicate e.cols.length none)))⟩
    else
      let idx := rest.foldl (fun acc e => mergeUnion acc e.index) d.index
      ⟨idx, allCols, idx.map (fun t => (d :: rest).flatMap (fun e => dfRowAt e t))⟩

/-- A row with no missing value. -/
def rowAllSome (r : List Val) : Bool := r.all (fun v => v.isSome)

/-- `df.dropna()`: keep the rows (and their timestamps) without NaN. -/
def dropnaAll (df : DF α) : DF α :=
  let kept := (df.index.zip df.data).filter (fun p => rowAllSome p.2)
  ⟨kept.map (fun p => p.1), df.cols, kept.map (fun p => p.2)⟩

/-- `df.dropna(subset=first nFeat columns)`: keep the rows whose first
`nFeat` cells (the feature columns) have no NaN. -/
def dropnaSubset (nFeat : Nat) (df : DF α) : DF α :=
  let kept := (df.index.zip df.data).filter (fun p => rowAllSome (p.2.take nFeat))
  ⟨kept.map (fun p => p.1), df.cols, kept.map (fun p => p.2)⟩

/-- Static covariate table of a series: one named numeric attribute per
column, one row per component. -/
structure SCov where
  cols : List String
  rows : List (List ℚ)
deriving DecidableEq, Repr

/-- A `TimeSeries`: timestamp index, named components, one row of component
values per timestamp, and an optional static covariate table. -/
structure TSeries where
  index : List Int
  comps : List String
  vals : List (List Val)
  statics : Option SCov
deriving DecidableEq, Repr

/-- `ts.pd_dataframe()`. -/
def tsFrame (ts : TSeries) : DF String := ⟨ts.index, ts.comps, ts.vals⟩

/-- All parameters of `_create_lagged_data` other than the series.
`maxSamples` follows the source's truthiness test: `none` and `some 0`
both disable the cap. -/
structure LagSpec where
  ocl : Nat
  lags : List Int
  lagsPast : List Int
  lagsFuture : List Int
  maxSamples : Option Nat
  isTraining : Bool
  multiModels : Bool
deriving DecidableEq, Repr

/-- One target-lag feature block: `df_target.shift(-lag)` with columns
renamed to `"{comp}_target_lag{lag}"`. -/
def targetLagBlock (dft : DF String) (lag : Int) : DF ColTag :=
  dfRelabel (fun c => ⟨c, "target", lag⟩) (dfShift (-lag) dft)

/-- One horizon block of `y`: `df_target.shift(-k)` with columns renamed to
`"{comp}_horizon_lag{k}"`. -/
def horizonBlock (dft : DF String) (k : Int) : DF ColTag :=
  dfRelabel (fun c => ⟨c, "horizon", k⟩) (dfShift (-k) dft)

/-- One covariate-lag feature block: `df_cov.shift(-lag)` with columns
renamed to `"{comp}_{name}_cov_lag{lag}"`. -/
def covLagBlock (name : String) (dfc : DF String) (lag : Int) : DF ColTag :=
  dfRelabel (fun c => ⟨c, name ++ "_cov", lag⟩) (dfShift (-lag) dfc)

/-- The list of horizon blocks of `y`: one per horizon step `0 ≤ k < ocl`
when `multi_models`, else only the step at `ocl - 1`. -/
def yBlocks (dft : DF String) (ocl : Nat) (multiModels : Bool) : List (DF ColTag) :=
  if multiModels then (List.range ocl).map (fun (k : Nat) => horizonBlock dft (k : Int))
  else [horizonBlock dft ((ocl : Int) - 1)]

/-- The target-lag feature blocks (`if lags:` guards the empty list). -/
def targetFeatureBlocks (dft : DF String) (lags : List Int) : List (DF ColTag) :=
  lags.map (fun lag => targetLagBlock dft lag)

/-- The feature blocks of one covariate group.  In inference mode the
covariate frame is first reindexed onto the union of the target index and its
own index; a truthy lag list with no covariate frame is the source's
`AttributeError` on `None`. -/
def covFeatureBlocks (isTraining : Bool) (tgtIdx : List Int) (name : String)
    (covFrame : Option (DF String)) (lagsCov : List Int) :
    Except String (List (DF ColTag)) :=
  if lagsCov.isEmpty then .ok []
  else
    match covFrame with
    | none => .error "NoneType object has no attribute"
    | some dfc =>
      let dfc2 := if isTraining then dfc else dfReindex (mergeUnion tgtIdx dfc.index) dfc
      .ok (lagsCov.map (fun lag => covLagBlock name dfc2 lag))

/-- `df_X = pd.concat(df_X, axis=1)`: the feature frame of one series;
`pd.concat` of an empty block list raises. -/
def buildDfX (sp : LagSpec) (dft : DF String) (pc fc : Option (DF String)) :
    Except String (DF ColTag) :=
  match covFeatureBlocks sp.isTraining dft.index "past" pc sp.lagsPast with
  | .error e => .error e
  | .ok pastBlocks =>
    match covFeatureBlocks sp.isTraining dft.index "future" fc sp.lagsFuture with
    | .error e => .error e
    | .ok futBlocks =>
      let blocks := targetFeatureBlocks dft sp.lags ++ pastBlocks ++ futBlocks
      if blocks.isEmpty then .error "No objects to concatenate"
      else .ok (concatCols blocks)

/-- The combined frame `df_X_y = pd.concat([df_X, df_y], axis=1)` of one
series, paired with the feature-column count at which it is split back. -/
def seriesXyFrame (sp : LagSpec) (dft : DF String) (pc fc : Option (DF String)) :
    Except String (DF ColTag × Nat) :=
  match buildDfX sp dft pc fc with
  | .error e => .error e
  | .ok dfX =>
    if (yBlocks dft sp.ocl sp.multiModels).isEmpty then
      .error "No objects to concatenate"
    else
      .ok (concatCols [dfX, concatCols (yBlocks dft sp.ocl sp.multiModels)], dfX.cols.length)

/-- `X_y[-max_samples_per_ts:]` and `Ts[-1][-max_samples_per_ts:]`, applied
only when `max_samples_per_ts` is truthy. -/
def applyCap (ms : Option Nat) (df : DF α) : DF α :=
  match ms with
  | none => df
  | some m =>
    if m = 0 then df
    else ⟨df.index.drop (df.index.length - m), df.cols, df.data.drop (df.data.length - m)⟩

/-- Mode-dependent NaN row filtering followed by the sample cap. -/
def seriesFiltered (sp : LagSpec) (dft : DF String) (pc fc : Option (DF String)) :
    Except String (DF ColTag × Nat) :=
  match seriesXyFrame sp dft pc fc with
  | .error e => .error e
  | .ok (dfXy, nf) =>
    let filtered := if sp.isTraining then dropnaAll dfXy else dropnaSubset nf dfXy
    .ok (applyCap sp.maxSamples filtered, nf)

/-- The number of samples one series contributes after filtering and capping
(zero also when an earlier step of the pipeline raised). -/
def seriesSampleCount (sp : LagSpec) (dft : DF String) (pc fc : Option (DF String)) : Nat :=
  match seriesFiltered sp dft pc fc with
  | .error _ => 0
  | .ok (capped, _) => capped.data.length

/-- The message of `raise_if(X_y.shape[0] == 0, ...)`: it names the series
position exactly when more than one series was supplied. -/
def emptySamplesMsg (idx numSeries : Nat) : String :=
  "Unable to build any training samples of the target series " ++
    (if numSeries > 1 then "at index " ++ toString idx ++ " " else "") ++
    "and the corresponding covariate series; There is no time step for which " ++
    "all required lags are available and are not NaN values."

/-- Per-series result `(X, y, Ts entry)`: the filtered and capped block is
split at the feature-column boundary (`np.split(X_y, [df_X.shape[1]], axis=1)`),
and the empty-sample-set error is raised when no row remains. -/
def seriesResult (sp : LagSpec) (numSeries idx : Nat) (dft : DF String)
    (pc fc : Option (DF String)) :
    Except String (List (List Val) × List (List Val) × List Int) :=
  match seriesFiltered sp dft pc fc with
  | .error e => .error e
  | .ok (capped, nf) =>
    if capped.data.length = 0 then .error (emptySamplesMsg idx numSeries)
    else
      .ok (capped.data.map (fun r => r.take nf),
           capped.data.map (fun r => r.drop nf),
           capped.index)

/-- `past_covariates[idx]` under Python truthiness: an absent or empty
covariate sequence contributes `None`; a nonempty one is indexed (an
out-of-range position is the source's `IndexError`). -/
def covAt (covs : Option (List TSeries)) (idx : Nat) :
    Except String (Option (DF String)) :=
  match covs with
  | none => .ok none
  | some cs =>
    if cs.isEmpty then .ok none
    else
      match cs.get? idx with
      | some c => .ok (some (tsFrame c))
      | none => .error "list index out of range"

/-- The per-series loop of `_create_lagged_data`, accumulating `Xs`, `ys`
and `Ts` in input order and propagating the first error. -/
def buildSeries (sp : LagSpec) (numSeries : Nat) (pcs fcs : Option (List TSeries)) :
    Nat → List TSeries →
    Except String (List (List (List Val)) × List (List (List Val)) × List (List Int))
  | _, [] => .ok ([], [], [])
  | idx, t :: rest =>
    match covAt pcs idx with
    | .error e => .error e
    | .ok pc =>
      match covAt fcs idx with
      | .error e => .error e
      | .ok fc =>
        match seriesResult sp numSeries idx (tsFrame t) pc fc with
        | .error e => .error e
        | .ok (x, y, ti) =>
          match buildSeries sp numSeries pcs fcs (idx + 1) rest with
          | .error e => .error e
          | .ok (xs, ys, ts) => .ok (x :: xs, y :: ys, ti :: ts)

/-- `_create_lagged_data`: build every series' matrices, then concatenate the
feature and target matrices row-wise and return the per-series timestamp
indices.  `np.concatenate` raises on an empty list, and raises a
dimension-mismatch error when the per-series matrices have different column
counts (axis-0 concatenation requires equal widths); at this point every
per-series matrix is rectangular and nonempty (the empty-sample error was
raised earlier), so its width is the length of its first row. -/
def create_lagged_data (sp : LagSpec) (targets : List TSeries)
    (pcs fcs : Option (List TSeries)) :
    Except String (List (List Val) × List (List Val) × List (List Int)) :=
  match buildSeries sp targets.length pcs fcs 0 targets with
  | .error e => .error e
  | .ok (xs, ys, ts) =>
    if targets.isEmpty then .error "need at least one array to concatenate"
    else if xs.all (fun x => (x.headD []).length == ((xs.headD []).headD []).length) then
      if ys.all (fun y2 => (y2.headD []).length == ((ys.headD []).headD []).length) then
        .ok (xs.flatten, ys.flatten, ts)
      else .error
        "all the input array dimensions except for the concatenation axis must match exactly"
    else .error
      "all the input array dimensions except for the concatenation axis must match exactly"

/-- `max(abs(v) for v in [min_target_lag, min_past_cov_lag, min_future_cov_lag]
if v is not None)`; `max` of an empty sequence raises. -/
def maxPastLag (minTargetLag minPastCovLag minFutureCovLag : Option Int) :
    Except String Int :=
  match ([minTargetLag, minPastCovLag, minFutureCovLag].filterMap id).map (fun v => |v|) with
  | [] => .error "max() arg is an empty sequence"
  | a :: rest => .ok (rest.foldl max a)

/-- `len_shortest_features`: the appender's recomputation of the number of
valid rows a series contributes.  A future covariate length with no
`max_future_cov_lag` is the source's `TypeError` on `int - None`. -/
def lenShortestFeatures (tsLen : Nat) (ocl : Nat) (mpl : Int)
    (pastLen futLen : Option Nat) (maxFutCovLag : Option Int) : Except String Int :=
  let lenTarget : Int := (tsLen : Int) - mpl - ((ocl : Int) - 1)
  let lenPast : Option Int := pastLen.map (fun l => (l : Int) - mpl)
  match futLen, maxFutCovLag with
  | some _, none => .error "unsupported operand type"
  | _, _ =>
    let lenFut : Option Int :=
      match futLen, maxFutCovLag with
      | some l, some mf => some ((l : Int) - mpl - mf)
      | _, _ => none
    .ok ((lenTarget :: ([lenPast, lenFut].filterMap id)).foldl min lenTarget)

/-- `len(covs[idx])` when the covariate sequence is present (`is not None`);
an out-of-range position is the source's `IndexError`. -/
def optLenAt (covs : Option (List TSeries)) (idx : Nat) : Except String (Option Nat) :=
  match covs with
  | none => .ok none
  | some cs =>
    match cs.get? idx with
    | some c => .ok (some c.index.length)
    | none => .error "list index out of range"

/-- The parameters of `_add_static_covariates` other than the matrices and
series.  `maxSamples` is tested with `is not None` here (no truthiness). -/
structure StaticArgs where
  nFeaturesIn : Option Nat
  minTargetLag : Option Int
  ocl : Nat
  minPastCovLag : Option Int
  minFutureCovLag : Option Int
  maxFutureCovLag : Option Int
  maxSamples : Option Nat
deriving DecidableEq, Repr

/-- `scovs_map["reps"]`: one repetition count per series, in input order. -/
def computeReps (a : StaticArgs) (mpl : Int) (pcs fcs : Option (List TSeries)) :
    Nat → List TSeries → Except String (List Int)
  | _, [] => .ok []
  | idx, ts :: rest =>
    match optLenAt pcs idx with
    | .error e => .error e
    | .ok pl =>
      match optLenAt fcs idx with
      | .error e => .error e
      | .ok fl =>
        match lenShortestFeatures ts.index.length a.ocl mpl pl fl a.maxFutureCovLag with
        | .error e => .error e
        | .ok ls =>
          let r : Int := match a.maxSamples with
            | some m => (m : Int)
            | none => ls
          match computeReps a mpl pcs fcs (idx + 1) rest with
          | .error e => .error e
          | .ok rs => .ok (r :: rs)

/-- The union of static covariate attribute names over all series
(`scovs_map["names"]`, a set; realised here in first-encounter order). -/
def unionColNames (targets : List TSeries) : List String :=
  ((targets.filterMap (fun ts => ts.statics)).flatMap (fun sc => sc.cols)).dedup

/-- The value of attribute `a` in a static covariate row `r` of table `sc`,
zero when the attribute is absent (the cell produced by
`df.reindex(col_names, axis=1, fill_value=0.0)`). -/
def scLookup (sc : SCov) (r : List ℚ) (a : String) : ℚ :=
  match sc.cols.findIdx? (fun c => c == a) with
  | some j => r.getD j 0
  | none => 0

/-- `df.reindex(col_names, axis=1, fill_value=0.0)`: per row, look each
requested attribute up in the table, filling missing attributes with zero. -/
def scovReindex (names : List String) (sc : SCov) : SCov :=
  ⟨names, sc.rows.map (fun r => names.map (fun a => scLookup sc r a))⟩

/-- `values.reshape(1, -1, order="F")` of a components-by-attributes table:
column-major flattening, one full attribute column (all components) after
another. -/
def flattenColMajor (rows : List (List ℚ)) (ncols : Nat) : List ℚ :=
  (List.range ncols).flatMap (fun j => rows.map (fun r => r.getD j 0))

/-- The flattened static covariate row of one series: reindex onto the
attribute union, then flatten in F-order. -/
def staticRowFor (sc : SCov) (names : List String) : List ℚ :=
  flattenColMajor (scovReindex names sc).rows names.length

/-- The per-series tiled static covariate blocks (`np.tile(..., (reps, 1))`);
a negative repetition count is numpy's negative-dimensions error. -/
def buildBlocks (colNames : List String) (nComps : Nat) :
    List (TSeries × Int) → Except String (List (List (List ℚ)))
  | [] => .ok []
  | (ts, r) :: rest =>
    if r < 0 then .error "negative dimensions are not allowed"
    else
      let row : List ℚ :=
        match ts.statics with
        | some sc => staticRowFor sc colNames
        | none => List.replicate (colNames.length * nComps) 0
      match buildBlocks colNames nComps rest with
      | .error e => .error e
      | .ok bs => .ok (List.replicate r.toNat row :: bs)

/-- `_add_static_covariates`: recompute per-series repetition counts, then
either zero-pad up to the model's expected feature count (no series has
static covariates) or append each series' tiled, zero-filled, F-flattened
static covariate row.  Shape mismatches are numpy's concatenation errors. -/
def add_static_covariates (a : StaticArgs) (features : List (List ℚ))
    (targets : List TSeries) (pcs fcs : Option (List TSeries)) :
    Except String (List (List ℚ)) :=
  match targets with
  | [] => .error "list index out of range"
  | t0 :: _ =>
    let nComps := t0.comps.length
    match maxPastLag a.minTargetLag a.minPastCovLag a.minFutureCovLag with
    | .error e => .error e
    | .ok mpl =>
      match computeReps a mpl pcs fcs 0 targets with
      | .error e => .error e
      | .ok reps =>
        if targets.any (fun ts => ts.statics.isSome) then
          let colNames := unionColNames targets
          match buildBlocks colNames nComps (targets.zip reps) with
          | .error e => .error e
          | .ok blocks =>
            let sblock := blocks.flatten
            if sblock.all (fun r => r.length = (sblock.headD []).length) then
              if sblock.length = features.length then
                .ok (features.zipWith (fun fr sr => fr ++ sr) sblock)
              else .error "all the input array dimensions must match"
            else .error "all the input array dimensions must match"
        else
          match a.nFeaturesIn with
          | some nf =>
            let w := (features.headD []).length
            if w < nf then .ok (features.map (fun r => r ++ List.replicate (nf - w) 0))
            else .ok features
          | none => .ok features

/-! ### Concrete input constructors and spec-side definitions used by the claims -/

def c1row (v : List Val) (p : Nat) : List Val :=
  (if 1 ≤ p then [v.getD (p - 1) none] else [none]) ++ [v.getD p none]


def spHorizon1 : LagSpec := ⟨1, [-1], [], [], none, true, true⟩


def mkSeries1 (v : List Val) : TSeries :=
  ⟨(List.range v.length).map (fun (p : Nat) => (p : Int)), ["c"], v.map (fun a => [a]), none⟩


def vr (n : Nat) : List Val := (List.range n).map (fun (i : Nat) => some (i : ℚ))


def tsDefault : TSeries := ⟨[], [], [], none⟩

/-- A two-component past covariate series over timestamps `0..4`: together
with a one-component covariate for another series it makes the per-series
feature matrices differ in width, so the final cross-series `np.concatenate`
raises even though every series retained rows. -/
def pcov2 : TSeries :=
  ⟨(List.range 5).map (fun (p : Nat) => (p : Int)), ["a", "b"],
    List.replicate 5 [some 7, some 7], none⟩


def DFwfOpt : Option (DF String) → Prop
  | none => True
  | some df => DFwf df


/-- Modelled from the spec's parenthetical reading of the flattening order:
"values varying fastest by attribute, then by component", i.e. a row-major
(C-order) flattening of the reindexed components-by-attributes table. -/
def specAttrFastestRow (sc : SCov) (names : List String) : List ℚ :=
  (scovReindex names sc).rows.flatten


/-- The component columns contributed by an optional covariate frame. -/
def optColsOf : Option (DF String) → List String
  | some d => d.cols
  | none => []

/-! ### Generic list lemmas used throughout -/

lemma flatMap_congr_mem {α β : Type} {l : List α} {f g : α → List β}
    (h : ∀ a ∈ l, f a = g a) : l.flatMap f = l.flatMap g := by
  induction l with
  | nil => rfl
  | cons a tl ih =>
    rw [List.flatMap_cons, List.flatMap_cons, h a (by simp), ih (fun b hb => h b (by simp [hb]))]

lemma flatMap_range_getD {α β : Type} (l : List α) (d : α) (g : α → List β) :
    (List.range l.length).flatMap (fun j => g (l.getD j d)) = l.flatMap g := by
  induction l with
  | nil => rfl
  | cons a tl ih =>
    rw [List.length_cons, List.range_succ_eq_map, List.flatMap_cons, List.flatMap_map,
      List.flatMap_cons]
    refine congrArg (g ((a :: tl).getD 0 d) ++ ·) ?_
    rw [← ih]
    refine flatMap_congr_mem ?_
    intro j hj
    rfl

lemma getD_map_range {α : Type} {f : Nat → α} {d : α} {p n : Nat} (hp : p < n) :
    ((List.range n).map f).getD p d = f p := by
  rw [List.getD_eq_getElem?_getD, List.getElem?_map, List.getElem?_range hp]
  rfl

lemma getD_map_lt {α β : Type} (f : α → β) {l : List α} {j : Nat} (h : j < l.length)
    (d : β) (d' : α) : (l.map f).getD j d = f (l.getD j d') := by
  rw [List.getD_eq_getElem _ _ (by simpa using h), List.getElem_map,
    List.getD_eq_getElem _ _ h]

lemma map_getD_range_self {α : Type} (l : List α) (d : α) :
    (List.range l.length).map (fun i => l.getD i d) = l := by
  induction l with
  | nil => rfl
  | cons a t ih =>
    simp only [List.length_cons, List.range_succ_eq_map, List.map_cons, List.getD_cons_zero,
      List.map_map]
    refine congrArg (a :: ·) ?_
    refine Eq.trans (List.map_congr_left ?_) ih
    intro i hi
    simp [Function.comp]


lemma collapse3 (F G : Nat → List Val) (n : Nat) (d1 d2 d3 d4 : List Val) :
    (List.range n).map (fun i =>
        ((List.range n).map (fun i2 => ((List.range n).map F).getD i2 d1)).getD i d2 ++
        ((List.range n).map (fun i2 => ((List.range n).map G).getD i2 d3)).getD i d4)
    = (List.range n).map (fun i => F i ++ G i) := by
  apply List.map_congr_left
  intro p hp
  rw [List.mem_range] at hp
  rw [getD_map_range hp, getD_map_range hp, getD_map_range hp, getD_map_range hp]

lemma c1row_collapse (n : Nat) (v : List Val) (h : n = v.length) :
    (List.range n).map (fun (i : Nat) =>
      (if 0 ≤ (i : Int) - 1 ∧ (i : Int) - 1 < (n : Int) then
          (List.map (fun a => [a]) v).getD ((i : Int) - 1).toNat
            (List.replicate (["c"]).length none)
        else List.replicate (["c"]).length none) ++
      (if 0 ≤ (i : Int) ∧ (i : Int) < (n : Int) then
          (List.map (fun a => [a]) v).getD ((i : Int)).toNat
            (List.replicate (["c"]).length none)
        else List.replicate (["c"]).length none))
    = (List.range v.length).map (fun p => c1row v p) := by
  subst h
  apply List.map_congr_left
  intro p hp
  rw [List.mem_range] at hp
  by_cases h1 : 1 ≤ p
  case pos =>
    rw [if_pos ⟨by omega, by omega⟩, if_pos ⟨by omega, by omega⟩]
    have ht1 : ((p : Int) - 1).toNat = p - 1 := by omega
    have ht2 : ((p : Int)).toNat = p := by omega
    rw [ht1, ht2, getD_map_lt _ (by omega) _ none, getD_map_lt _ (by omega) _ none,
      c1row, if_pos h1]
  case neg =>
    rw [if_neg (by omega), if_pos ⟨by omega, by omega⟩]
    have ht2 : ((p : Int)).toNat = p := by omega
    rw [ht2, getD_map_lt _ (by omega) _ none, c1row, if_neg h1]
    simp

lemma zip_left_map_getD {n : Nat} (l : List Int) (g : Nat → List Val) (h : l.length = n) :
    l.zip ((List.range n).map g) = (List.range n).map (fun p => (l.getD p 0, g p)) := by
  conv_lhs => rw [← map_getD_range_self l 0]
  rw [h, List.zip_map']

lemma single_eval (idx : List Int) (v : List Val) (h : idx.length = v.length) :
    create_lagged_data ⟨1, [-1], [], [], none, true, true⟩
        [⟨idx, ["c"], v.map (fun a => [a]), none⟩] none none =
      (if ((List.range v.length).filter (fun p => rowAllSome (c1row v p))).length = 0 then
        Except.error (emptySamplesMsg 0 1)
       else
        Except.ok
          (((List.range v.length).filter (fun p => rowAllSome (c1row v p))).map
              (fun p => (c1row v p).take 1),
           ((List.range v.length).filter (fun p => rowAllSome (c1row v p))).map
              (fun p => (c1row v p).drop 1),
           [((List.range v.length).filter (fun p => rowAllSome (c1row v p))).map
              (fun p => idx.getD p 0)])) := by
  have hr1 : List.range 1 = [0] := rfl
  simp only [create_lagged_data, buildSeries, covAt, seriesResult, seriesFiltered,
    seriesXyFrame, buildDfX, covFeatureBlocks, targetFeatureBlocks, yBlocks,
    targetLagBlock, horizonBlock, covLagBlock, dfRelabel, dfShift, tsFrame,
    List.isEmpty_nil, List.map_cons, List.map_nil, hr1, List.append_nil,
    List.nil_append, List.isEmpty_cons, if_true, concatCols, List.all_nil,
    List.all_cons, List.flatMap_cons, List.flatMap_nil, Bool.and_true,
    beq_self_eq_true, applyCap, dropnaAll, Bool.false_eq_true, if_false,
    reduceCtorEq, Nat.cast_zero, Nat.cast_one, neg_neg, neg_zero, sub_zero]
  rw [collapse3, c1row_collapse idx.length v h,
    zip_left_map_getD idx (fun p => c1row v p) h]
  simp only [List.filter_map, List.map_map, Function.comp_def, List.length_map,
    List.length_singleton]
  by_cases hK : ((List.range v.length).filter (fun p => rowAllSome (c1row v p))).length = 0
  · simp [hK]
  · simp [hK, buildSeries]

/-- C1: end-to-end example: for the single target series `[1,2,3,4,5]` at
timestamps `0..4` with target lags `[-1]`, horizon length 1, multi-step
targets, training mode, the builder returns `X = [[1],[2],[3],[4]]`,
`y = [[2],[3],[4],[5]]` and timestamps `[1,2,3,4]`; and in general, for any
single series under that configuration, the `X` row at position `i` is the
target's value one step before the retained timestamp `t[i]` and the `y` row
at position `i` is the target's value at `t[i]`. -/
theorem claim1_e2e_and_row_alignment :
    (create_lagged_data spHorizon1 [mkSeries1 [some 1, some 2, some 3, some 4, some 5]]
        none none =
      .ok ([[some 1], [some 2], [some 3], [some 4]],
           [[some 2], [some 3], [some 4], [some 5]],
           [[1, 2, 3, 4]]))
  ∧ (∀ (v : List Val) (X y : List (List Val)) (T : List Int) (i : Nat),
      create_lagged_data spHorizon1 [mkSeries1 v] none none = .ok (X, y, [T]) →
      i < T.length →
      ∃ p : Nat, T.getD i 0 = (p : Int) ∧ 1 ≤ p ∧ p < v.length ∧
        X.getD i [] = [v.getD (p - 1) none] ∧ y.getD i [] = [v.getD p none]) := by
  constructor
  · rfl
  · intro v X y T i hok hi
    rw [show spHorizon1 = ⟨1, [-1], [], [], none, true, true⟩ from rfl,
      show mkSeries1 v = ⟨(List.range v.length).map (fun (p : Nat) => (p : Int)), ["c"],
        v.map (fun a => [a]), none⟩ from rfl,
      single_eval _ v (by simp)] at hok
    by_cases hK : ((List.range v.length).filter (fun p => rowAllSome (c1row v p))).length = 0
    · rw [if_pos hK] at hok
      exact absurd hok (by simp)
    · rw [if_neg hK] at hok
      simp only [Except.ok.injEq, Prod.mk.injEq, List.cons.injEq, and_true] at hok
      obtain ⟨hX, hy, hT⟩ := hok
      subst hX
      subst hy
      subst hT
      have hiK : i < ((List.range v.length).filter (fun p => rowAllSome (c1row v p))).length := by
        simpa using hi
      set K := (List.range v.length).filter (fun p => rowAllSome (c1row v p)) with hKdef
      have hpK : K.getD i 0 ∈ K := by
        rw [List.getD_eq_getElem _ _ hiK]
        exact List.getElem_mem hiK
      have hmem := List.mem_filter.mp hpK
      have hplt : K.getD i 0 < v.length := List.mem_range.mp hmem.1
      have hall := hmem.2
      have h1p : 1 ≤ K.getD i 0 := by
        by_contra hc
        rw [c1row, if_neg hc] at hall
        simp [rowAllSome] at hall
      refine ⟨K.getD i 0, ?_, h1p, hplt, ?_, ?_⟩
      · rw [getD_map_lt _ hiK _ 0, getD_map_range hplt]
      · rw [getD_map_lt _ hiK _ 0, c1row, if_pos h1p]
        rfl
      · rw [getD_map_lt _ hiK _ 0, c1row, if_pos h1p]
        rfl

/-- Witness for C1: the general row-alignment conjunct applied at the concrete
five-point series and position 0. -/
theorem claim1_witness :
    ∃ p : Nat, ([(1 : Int), 2, 3, 4]).getD 0 0 = (p : Int) ∧ 1 ≤ p ∧ p < 5 ∧
      ([[some (1 : ℚ)], [some 2], [some 3], [some 4]]).getD 0 [] =
        [([some (1 : ℚ), some 2, some 3, some 4, some 5]).getD (p - 1) none] ∧
      ([[some (2 : ℚ)], [some 3], [some 4], [some 5]]).getD 0 [] =
        [([some (1 : ℚ), some 2, some 3, some 4, some 5]).getD p none] :=
  claim1_e2e_and_row_alignment.2 [some 1, some 2, some 3, some 4, some 5]
    [[some 1], [some 2], [some 3], [some 4]] [[some 2], [some 3], [some 4], [some 5]]
    [1, 2, 3, 4] 0 (by rfl) (by decide)

/-- C10: a `max_samples_per_ts` of 0 is falsy in the source's truthiness test,
so the builder behaves exactly as if no cap had been supplied: all aligned
rows and timestamps are retained and no error is raised on account of the
cap. -/
theorem claim10_zero_cap_is_no_cap :
    ∀ (ocl : Nat) (lags lagsPast lagsFuture : List Int) (isTraining multiModels : Bool)
      (targets : List TSeries) (pcs fcs : Option (List TSeries)),
      create_lagged_data ⟨ocl, lags, lagsPast, lagsFuture, some 0, isTraining, multiModels⟩
          targets pcs fcs =
      create_lagged_data ⟨ocl, lags, lagsPast, lagsFuture, none, isTraining, multiModels⟩
          targets pcs fcs := by
  intro ocl lags lagsPast lagsFuture isTraining multiModels targets pcs fcs
  have hsr : ∀ (nS i : Nat) (dft : DF String) (pc fc : Option (DF String)),
      seriesResult ⟨ocl, lags, lagsPast, lagsFuture, some 0, isTraining, multiModels⟩
          nS i dft pc fc =
      seriesResult ⟨ocl, lags, lagsPast, lagsFuture, none, isTraining, multiModels⟩
          nS i dft pc fc := by
    intro nS i dft pc fc
    rfl
  have hbs : ∀ (ts : List TSeries) (idx : Nat),
      buildSeries ⟨ocl, lags, lagsPast, lagsFuture, some 0, isTraining, multiModels⟩
          targets.length pcs fcs idx ts =
      buildSeries ⟨ocl, lags, lagsPast, lagsFuture, none, isTraining, multiModels⟩
          targets.length pcs fcs idx ts := by
    intro ts
    induction ts with
    | nil => intro idx; rfl
    | cons t rest ih =>
      intro idx
      simp only [buildSeries, hsr, ih]
  simp only [create_lagged_data, hbs]

/-- C3: the static covariate appender's recomputed per-series row count
diverges from the rows the builder actually produces.  Concrete input: one
NaN-free target of length 10 (timestamps 0..9), a future covariate on the
same index, target lags `[-1]`, future covariate lags `[2, 3]`, horizon 1,
training mode, no cap.  The builder retains 6 rows, but `max_past_lag`
becomes `max(|-1|, |2|) = 2` and `len_shortest_features` evaluates to 5. -/
theorem claim3_reps_formula_diverges_from_builder :
    ∃ (nb : Nat) (na : Int),
      (create_lagged_data ⟨1, [-1], [], [2, 3], none, true, true⟩
          [mkSeries1 (vr 10)] none (some [mkSeries1 (vr 10)])).map
          (fun r => r.2.2.map List.length) = .ok [nb] ∧
      maxPastLag (some (-1)) none (some 2) = .ok 2 ∧
      computeReps ⟨none, some (-1), 1, none, some 2, some 3, none⟩ 2
          none (some [mkSeries1 (vr 10)]) 0 [mkSeries1 (vr 10)] = .ok [na] ∧
      (nb : Int) ≠ na := by
  refine ⟨6, 5, by rfl, by rfl, by rfl, by decide⟩

lemma seriesFiltered_len {sp : LagSpec} {dft : DF String} {pc fc : Option (DF String)}
    {capped : DF ColTag} {nf : Nat} (h : seriesFiltered sp dft pc fc = .ok (capped, nf)) :
    capped.data.length = capped.index.length := by
  rw [seriesFiltered] at h
  cases hxy : seriesXyFrame sp dft pc fc with
  | error e => rw [hxy] at h; exact absurd h (by simp)
  | ok pr =>
    obtain ⟨dfXy, nf0⟩ := pr
    rw [hxy] at h
    simp only [Except.ok.injEq, Prod.mk.injEq] at h
    obtain ⟨hc, -⟩ := h
    subst hc
    have hlen : ∀ (df : DF ColTag),
        (if sp.isTraining then dropnaAll df else dropnaSubset nf0 df).data.length =
        (if sp.isTraining then dropnaAll df else dropnaSubset nf0 df).index.length := by
      intro df
      by_cases ht : sp.isTraining
      · simp [ht, dropnaAll]
      · simp [ht, dropnaSubset]
    cases hms : sp.maxSamples with
    | none => simpa [applyCap] using hlen dfXy
    | some m =>
      by_cases hm : m = 0
      · simpa [applyCap, hm] using hlen dfXy
      · simp only [applyCap]
        rw [if_neg hm]
        simp only [List.length_drop]
        rw [hlen dfXy]

lemma seriesResult_len {sp : LagSpec} {nS i : Nat} {dft : DF String}
    {pc fc : Option (DF String)} {x y : List (List Val)} {t : List Int}
    (h : seriesResult sp nS i dft pc fc = .ok (x, y, t)) :
    x.length = t.length ∧ y.length = t.length := by
  rw [seriesResult] at h
  cases hsf : seriesFiltered sp dft pc fc with
  | error e => rw [hsf] at h; exact absurd h (by simp)
  | ok pr =>
    obtain ⟨capped, nf⟩ := pr
    simp only [hsf] at h
    split at h
    · exact absurd h (by simp)
    · simp only [Except.ok.injEq, Prod.mk.injEq] at h
      obtain ⟨hx, hy, ht⟩ := h
      subst hx; subst hy; subst ht
      constructor
      · simp [seriesFiltered_len hsf]
      · simp [seriesFiltered_len hsf]

lemma buildSeries_shape {sp : LagSpec} {nS : Nat} {pcs fcs : Option (List TSeries)} :
    ∀ {ts : List TSeries} {idx : Nat} {xs ys : List (List (List Val))}
      {tls : List (List Int)},
      buildSeries sp nS pcs fcs idx ts = .ok (xs, ys, tls) →
      tls.length = ts.length ∧ xs.map List.length = tls.map List.length ∧
        ys.map List.length = tls.map List.length := by
  intro ts
  induction ts with
  | nil =>
    intro idx xs ys tls h
    simp only [buildSeries, Except.ok.injEq, Prod.mk.injEq] at h
    obtain ⟨h1, h2, h3⟩ := h
    subst h1; subst h2; subst h3
    simp
  | cons t rest ih =>
    intro idx xs ys tls h
    rw [buildSeries] at h
    cases hp : covAt pcs idx with
    | error e => simp only [hp] at h; exact absurd h (by simp)
    | ok pc =>
      simp only [hp] at h
      cases hf : covAt fcs idx with
      | error e => simp only [hf] at h; exact absurd h (by simp)
      | ok fc =>
        simp only [hf] at h
        cases hsr : seriesResult sp nS idx (tsFrame t) pc fc with
        | error e => simp only [hsr] at h; exact absurd h (by simp)
        | ok r =>
          obtain ⟨x, y, ti⟩ := r
          simp only [hsr] at h
          cases hbs : buildSeries sp nS pcs fcs (idx + 1) rest with
          | error e => simp only [hbs] at h; exact absurd h (by simp)
          | ok rr =>
            obtain ⟨xs2, ys2, ts2⟩ := rr
            simp only [hbs] at h
            simp only [Except.ok.injEq, Prod.mk.injEq] at h
            obtain ⟨h1, h2, h3⟩ := h
            subst h1; subst h2; subst h3
            obtain ⟨hl1, hl2, hl3⟩ := ih hbs
            obtain ⟨he1, he2⟩ := seriesResult_len hsr
            simp [hl1, hl2, hl3, he1, he2]

/-- C4: row-count invariant: per series, `X`, `y` and the retained timestamp
index have the same number of rows; after concatenation the total row count
of `X` (and of `y`) is the sum of the per-series timestamp index lengths,
with exactly one index per input series in input order. -/
theorem claim4_row_count_invariant :
    (∀ (sp : LagSpec) (nS i : Nat) (dft : DF String) (pc fc : Option (DF String))
        (x y : List (List Val)) (t : List Int),
        seriesResult sp nS i dft pc fc = .ok (x, y, t) →
        x.length = t.length ∧ y.length = t.length)
  ∧ (∀ (sp : LagSpec) (targets : List TSeries) (pcs fcs : Option (List TSeries))
        (X Y : List (List Val)) (Ts : List (List Int)),
        create_lagged_data sp targets pcs fcs = .ok (X, Y, Ts) →
        Ts.length = targets.length ∧ X.length = (Ts.map List.length).sum ∧
          Y.length = (Ts.map List.length).sum ∧ X.length = Y.length) := by
  constructor
  · intro sp nS i dft pc fc x y t h
    exact seriesResult_len h
  · intro sp targets pcs fcs X Y Ts h
    rw [create_lagged_data] at h
    cases hbs : buildSeries sp targets.length pcs fcs 0 targets with
    | error e => rw [hbs] at h; exact absurd h (by simp)
    | ok r =>
      obtain ⟨xs, ys, tls⟩ := r
      simp only [hbs] at h
      split at h
      · exact absurd h (by simp)
      · split at h
        · split at h
          · simp only [Except.ok.injEq, Prod.mk.injEq] at h
            obtain ⟨h1, h2, h3⟩ := h
            subst h1; subst h2; subst h3
            obtain ⟨hl1, hl2, hl3⟩ := buildSeries_shape hbs
            refine ⟨hl1, ?_, ?_, ?_⟩ <;>
              simp [List.length_flatten, hl2, hl3]
          · exact absurd h (by simp)
        · exact absurd h (by simp)

lemma concatCols_cols (dfs : List (DF α)) :
    (concatCols dfs).cols = dfs.flatMap (fun e => e.cols) := by
  cases dfs with
  | nil => rfl
  | cons d rest =>
    simp only [concatCols]
    split
    · rfl
    · rfl

/-- C5: column layout determinism: the feature frame's columns are the
target-lag columns, then past covariate lag columns, then future covariate
lag columns; within each group the lags appear in specification order and,
within each lag, the components in source order.  (The builder is a pure
function, so two calls on identical inputs produce identical columns and
values.) -/
theorem claim5_column_layout :
    ∀ (sp : LagSpec) (dft : DF String) (pc fc : Option (DF String)) (dfX : DF ColTag),
      buildDfX sp dft pc fc = .ok dfX →
      dfX.cols =
        sp.lags.flatMap (fun lag => dft.cols.map (fun c => ⟨c, "target", lag⟩))
        ++ sp.lagsPast.flatMap (fun lag =>
            (optColsOf pc).map (fun c => ⟨c, "past_cov", lag⟩))
        ++ sp.lagsFuture.flatMap (fun lag =>
            (optColsOf fc).map (fun c => ⟨c, "future_cov", lag⟩)) := by
  intro sp dft pc fc dfX h
  rw [buildDfX] at h
  have hcov : ∀ (lagsCov : List Int) (covFrame : Option (DF String)) (name : String)
      (bl : List (DF ColTag)),
      covFeatureBlocks sp.isTraining dft.index name covFrame lagsCov = .ok bl →
      bl.flatMap (fun e => e.cols) =
        lagsCov.flatMap (fun lag =>
          (optColsOf covFrame).map (fun c => ⟨c, name ++ "_cov", lag⟩)) := by
    intro lagsCov covFrame name bl hb
    cases covFrame with
    | none =>
      rw [covFeatureBlocks] at hb
      split at hb
      · simp only [Except.ok.injEq] at hb
        subst hb
        rename_i he
        rw [List.isEmpty_iff.mp he]
        rfl
      · exact absurd hb (by simp)
    | some dfc =>
      rw [covFeatureBlocks] at hb
      split at hb
      · simp only [Except.ok.injEq] at hb
        subst hb
        rename_i he
        rw [List.isEmpty_iff.mp he]
        rfl
      · simp only [Except.ok.injEq] at hb
        subst hb
        rw [List.flatMap_map]
        refine flatMap_congr_mem ?_
        intro lag hlag
        by_cases hT : sp.isTraining <;>
          simp [hT, covLagBlock, dfRelabel, dfReindex, dfShift, optColsOf]
  cases hp : covFeatureBlocks sp.isTraining dft.index "past" pc sp.lagsPast with
  | error e => simp only [hp] at h; exact absurd h (by simp)
  | ok pastBlocks =>
    simp only [hp] at h
    cases hf : covFeatureBlocks sp.isTraining dft.index "future" fc sp.lagsFuture with
    | error e => simp only [hf] at h; exact absurd h (by simp)
    | ok futBlocks =>
      simp only [hf] at h
      split at h
      · exact absurd h (by simp)
      · simp only [Except.ok.injEq] at h
        subst h
        rw [concatCols_cols, List.flatMap_append, List.flatMap_append,
          hcov _ _ _ _ hp, hcov _ _ _ _ hf, targetFeatureBlocks, List.flatMap_map]
        rfl

lemma buildSeries_propagate {sp : LagSpec} {nS : Nat} {pcs fcs : Option (List TSeries)}
    {e : String} :
    ∀ (ts : List TSeries) (idx i : Nat), i < ts.length →
    (∀ j, j < i → ∃ pc fc r, covAt pcs (idx + j) = .ok pc ∧ covAt fcs (idx + j) = .ok fc ∧
        seriesResult sp nS (idx + j) (tsFrame (ts.getD j tsDefault)) pc fc = .ok r) →
    (∃ pc fc, covAt pcs (idx + i) = .ok pc ∧ covAt fcs (idx + i) = .ok fc ∧
        seriesResult sp nS (idx + i) (tsFrame (ts.getD i tsDefault)) pc fc = .error e) →
    buildSeries sp nS pcs fcs idx ts = .error e := by
  intro ts
  induction ts with
  | nil => intro idx i hi _ _; exact absurd hi (by simp)
  | cons t rest ih =>
    intro idx i hi hpre hcur
    cases i with
    | zero =>
      obtain ⟨pc, fc, h1, h2, h3⟩ := hcur
      rw [Nat.add_zero] at h1 h2 h3
      simp only [List.getD_cons_zero] at h3
      rw [buildSeries]
      simp only [h1, h2, h3]
    | succ k =>
      obtain ⟨pc0, fc0, r0, h1, h2, h3⟩ := hpre 0 (by omega)
      rw [Nat.add_zero] at h1 h2 h3
      simp only [List.getD_cons_zero] at h3
      obtain ⟨x0, y0, t0⟩ := r0
      have hrec : buildSeries sp nS pcs fcs (idx + 1) rest = .error e := by
        apply ih (idx + 1) k (by simpa using hi)
        · intro j hj
          obtain ⟨pc, fc, r, ha, hb, hc⟩ := hpre (j + 1) (by omega)
          rw [show idx + (j + 1) = idx + 1 + j from by omega] at ha hb hc
          simp only [List.getD_cons_succ] at hc
          exact ⟨pc, fc, r, ha, hb, hc⟩
        · obtain ⟨pc, fc, ha, hb, hc⟩ := hcur
          rw [show idx + (k + 1) = idx + 1 + k from by omega] at ha hb hc
          simp only [List.getD_cons_succ] at hc
          exact ⟨pc, fc, ha, hb, hc⟩
      rw [buildSeries]
      simp only [h1, h2, h3, hrec]

lemma buildSeries_total {sp : LagSpec} {nS : Nat} {pcs fcs : Option (List TSeries)} :
    ∀ (ts : List TSeries) (idx : Nat),
    (∀ j, j < ts.length → ∃ pc fc r, covAt pcs (idx + j) = .ok pc ∧
        covAt fcs (idx + j) = .ok fc ∧
        seriesResult sp nS (idx + j) (tsFrame (ts.getD j tsDefault)) pc fc = .ok r) →
    ∃ r, buildSeries sp nS pcs fcs idx ts = .ok r := by
  intro ts
  induction ts with
  | nil => intro idx _; exact ⟨([], [], []), rfl⟩
  | cons t rest ih =>
    intro idx hall
    obtain ⟨pc0, fc0, r0, h1, h2, h3⟩ := hall 0 (by simp)
    rw [Nat.add_zero] at h1 h2 h3
    simp only [List.getD_cons_zero] at h3
    obtain ⟨x0, y0, t0⟩ := r0
    obtain ⟨rr, hrr⟩ := ih (idx + 1) (by
      intro j hj
      obtain ⟨pc, fc, r, ha, hb, hc⟩ := hall (j + 1) (by simpa using hj)
      rw [show idx + (j + 1) = idx + 1 + j from by omega] at ha hb hc
      simp only [List.getD_cons_succ] at hc
      exact ⟨pc, fc, r, ha, hb, hc⟩)
    obtain ⟨xs, ys, ts2⟩ := rr
    refine ⟨(x0 :: xs, y0 :: ys, t0 :: ts2), ?_⟩
    rw [buildSeries]
    simp only [h1, h2, h3, hrr]

lemma buildSeries_nth {sp : LagSpec} {nS : Nat} {pcs fcs : Option (List TSeries)} :
    ∀ {ts : List TSeries} {idx : Nat} {xs ys : List (List (List Val))}
      {tls : List (List Int)},
      buildSeries sp nS pcs fcs idx ts = .ok (xs, ys, tls) →
      ∀ k, k < ts.length →
      ∃ pc fc, covAt pcs (idx + k) = .ok pc ∧ covAt fcs (idx + k) = .ok fc ∧
        seriesResult sp nS (idx + k) (tsFrame (ts.getD k tsDefault)) pc fc =
          .ok (xs.getD k [], ys.getD k [], tls.getD k []) := by
  intro ts
  induction ts with
  | nil => intro idx xs ys tls h k hk; exact absurd hk (by simp)
  | cons t rest ih =>
    intro idx xs ys tls h k hk
    rw [buildSeries] at h
    cases hp : covAt pcs idx with
    | error e => simp only [hp] at h; exact absurd h (by simp)
    | ok pc =>
      simp only [hp] at h
      cases hf : covAt fcs idx with
      | error e => simp only [hf] at h; exact absurd h (by simp)
      | ok fc =>
        simp only [hf] at h
        cases hsr : seriesResult sp nS idx (tsFrame t) pc fc with
        | error e => simp only [hsr] at h; exact absurd h (by simp)
        | ok r =>
          obtain ⟨x, y, ti⟩ := r
          simp only [hsr] at h
          cases hbs : buildSeries sp nS pcs fcs (idx + 1) rest with
          | error e => simp only [hbs] at h; exact absurd h (by simp)
          | ok rr =>
            obtain ⟨xs2, ys2, ts2⟩ := rr
            simp only [hbs, Except.ok.injEq, Prod.mk.injEq] at h
            obtain ⟨h1, h2, h3⟩ := h
            subst h1; subst h2; subst h3
            cases k with
            | zero =>
              refine ⟨pc, fc, ?_, ?_, ?_⟩
              · rw [Nat.add_zero]; exact hp
              · rw [Nat.add_zero]; exact hf
              · simpa using hsr
            | succ kk =>
              obtain ⟨pc2, fc2, ha, hb2, hc⟩ := ih hbs kk (by simpa using hk)
              rw [show idx + 1 + kk = idx + (kk + 1) from by omega] at ha hb2 hc
              exact ⟨pc2, fc2, ha, hb2, by simpa using hc⟩

/-- C6: the empty-sample-set error: given that the frame-building stage of a
series succeeds, the builder raises the empty-sample error for that series
exactly when zero rows remain after filtering and capping, every per-series
error is that error, and `seriesSampleCount` is the retained row count; the
message names the series position exactly when more than one series was
supplied; the first failing series' error propagates unchanged to the
caller.  The call as a whole can nevertheless fail with every series
retaining rows: `np.concatenate` raises a dimension error when the
per-series matrices have different widths, so success is guaranteed only
when every series succeeds AND the per-series feature (and target) widths
agree, and a width mismatch among successful series yields the numpy
dimension error, not an empty-sample error. -/
theorem claim6_empty_sample_error :
    (∀ (sp : LagSpec) (nS i : Nat) (dft : DF String) (pc fc : Option (DF String))
        (capped : DF ColTag) (nf : Nat),
        seriesFiltered sp dft pc fc = .ok (capped, nf) →
        (seriesResult sp nS i dft pc fc = .error (emptySamplesMsg i nS) ↔
          capped.data.length = 0)
        ∧ (∀ e, seriesResult sp nS i dft pc fc = .error e → e = emptySamplesMsg i nS)
        ∧ seriesSampleCount sp dft pc fc = capped.data.length)
  ∧ (∀ (i n : Nat), 1 < n →
      emptySamplesMsg i n =
        "Unable to build any training samples of the target series at index " ++
          toString i ++
          " and the corresponding covariate series; There is no time step for which " ++
          "all required lags are available and are not NaN values.")
  ∧ (∀ i : Nat,
      emptySamplesMsg i 1 =
        "Unable to build any training samples of the target series " ++
          "and the corresponding covariate series; There is no time step for which " ++
          "all required lags are available and are not NaN values.")
  ∧ (∀ (sp : LagSpec) (targets : List TSeries) (pcs fcs : Option (List TSeries))
        (i : Nat) (e : String),
      i < targets.length →
      (∀ j, j < i → ∃ pc fc r, covAt pcs j = .ok pc ∧ covAt fcs j = .ok fc ∧
          seriesResult sp targets.length j (tsFrame (targets.getD j tsDefault)) pc fc = .ok r) →
      (∃ pc fc, covAt pcs i = .ok pc ∧ covAt fcs i = .ok fc ∧
          seriesResult sp targets.length i (tsFrame (targets.getD i tsDefault)) pc fc =
            .error e) →
      create_lagged_data sp targets pcs fcs = .error e)
  ∧ (∀ (sp : LagSpec) (targets : List TSeries) (pcs fcs : Option (List TSeries))
        (wX wY : Nat),
      targets ≠ [] →
      (∀ j, j < targets.length → ∃ pc fc x y t2, covAt pcs j = .ok pc ∧
          covAt fcs j = .ok fc ∧
          seriesResult sp targets.length j (tsFrame (targets.getD j tsDefault)) pc fc =
            .ok (x, y, t2) ∧
          (x.headD []).length = wX ∧ (y.headD []).length = wY) →
      ∃ r, create_lagged_data sp targets pcs fcs = .ok r)
  ∧ (∀ (sp : LagSpec) (targets : List TSeries) (pcs fcs : Option (List TSeries))
        (xs ys : List (List (List Val))) (tls : List (List Int)),
      buildSeries sp targets.length pcs fcs 0 targets = .ok (xs, ys, tls) →
      targets ≠ [] →
      xs.all (fun x => (x.headD []).length == ((xs.headD []).headD []).length) = false →
      create_lagged_data sp targets pcs fcs =
        .error
          "all the input array dimensions except for the concatenation axis must match exactly") := by
  refine ⟨?_, ?_, ?_, ?_, ?_, ?_⟩
  · intro sp nS i dft pc fc capped nf hsf
    have hs : seriesResult sp nS i dft pc fc =
        (if capped.data.length = 0 then .error (emptySamplesMsg i nS)
         else .ok (capped.data.map (fun r => r.take nf),
                   capped.data.map (fun r => r.drop nf), capped.index)) := by
      rw [seriesResult]
      simp only [hsf]
    have hc : seriesSampleCount sp dft pc fc = capped.data.length := by
      rw [seriesSampleCount]
      simp only [hsf]
    by_cases h0 : capped.data.length = 0
    · rw [hs, if_pos h0]
      refine ⟨by simp [h0], ?_, hc⟩
      intro e he
      simp only [Except.error.injEq] at he
      exact he.symm
    · rw [hs, if_neg h0]
      refine ⟨by simp [h0], ?_, hc⟩
      intro e he
      exact absurd he (by simp)
  · intro i n hn
    rw [emptySamplesMsg, if_pos hn]
    have h1 : "Unable to build any training samples of the target series " ++ "at index " =
        "Unable to build any training samples of the target series at index " := rfl
    simp only [← String.append_assoc]
    rw [h1, String.append_assoc _ " "
      "and the corresponding covariate series; There is no time step for which "]
    rfl
  · intro i
    rw [emptySamplesMsg, if_neg (by omega)]
    rw [String.append_empty]
  · intro sp targets pcs fcs i e hi hpre hcur
    rw [create_lagged_data]
    have hb := buildSeries_propagate targets 0 i hi
      (by intro j hj; simpa using hpre j hj) (by simpa using hcur)
    simp only [hb]
  · intro sp targets pcs fcs wX wY hne hall
    obtain ⟨r, hr⟩ := buildSeries_total targets 0 (by
      intro j hj
      obtain ⟨pc, fc, x, y, t2, h1, h2, h3, -, -⟩ := hall j hj
      exact ⟨pc, fc, (x, y, t2), by simpa using h1, by simpa using h2, by simpa using h3⟩)
    obtain ⟨xs, ys, tls⟩ := r
    obtain ⟨hl1, hl2, hl3⟩ := buildSeries_shape hr
    have hxlen : xs.length = targets.length := by
      have := congrArg List.length hl2
      simpa [hl1] using this
    have hylen : ys.length = targets.length := by
      have := congrArg List.length hl3
      simpa [hl1] using this
    have hpos : 0 < targets.length := List.length_pos.mpr hne
    have hx : ∀ k, k < targets.length → ((xs.getD k []).headD []).length = wX := by
      intro k hk
      obtain ⟨pc2, fc2, hp2, hf2, hs2⟩ := buildSeries_nth hr k hk
      rw [Nat.zero_add] at hp2 hf2 hs2
      obtain ⟨pc, fc, x, y, t2, h1, h2, h3, hwx, hwy⟩ := hall k hk
      rw [h1] at hp2
      rw [h2] at hf2
      simp only [Except.ok.injEq] at hp2 hf2
      subst hp2; subst hf2
      rw [h3] at hs2
      simp only [Except.ok.injEq, Prod.mk.injEq] at hs2
      obtain ⟨e1, e2, e3⟩ := hs2
      rw [← e1]
      exact hwx
    have hy : ∀ k, k < targets.length → ((ys.getD k []).headD []).length = wY := by
      intro k hk
      obtain ⟨pc2, fc2, hp2, hf2, hs2⟩ := buildSeries_nth hr k hk
      rw [Nat.zero_add] at hp2 hf2 hs2
      obtain ⟨pc, fc, x, y, t2, h1, h2, h3, hwx, hwy⟩ := hall k hk
      rw [h1] at hp2
      rw [h2] at hf2
      simp only [Except.ok.injEq] at hp2 hf2
      subst hp2; subst hf2
      rw [h3] at hs2
      simp only [Except.ok.injEq, Prod.mk.injEq] at hs2
      obtain ⟨e1, e2, e3⟩ := hs2
      rw [← e2]
      exact hwy
    have hxs0 : ((xs.headD []).headD []).length = wX := by
      cases hcx : xs with
      | nil => rw [hcx] at hxlen; rw [← hxlen] at hpos; exact absurd hpos (by simp)
      | cons a l => have := hx 0 hpos; rw [hcx] at this; simpa using this
    have hys0 : ((ys.headD []).headD []).length = wY := by
      cases hcy : ys with
      | nil => rw [hcy] at hylen; rw [← hylen] at hpos; exact absurd hpos (by simp)
      | cons a l => have := hy 0 hpos; rw [hcy] at this; simpa using this
    have hallx : xs.all
        (fun x => (x.headD []).length == ((xs.headD []).headD []).length) = true := by
      rw [List.all_eq_true]
      intro x hxm
      obtain ⟨k, hk, hget⟩ := List.mem_iff_getElem.mp hxm
      have hw := hx k (hxlen ▸ hk)
      rw [List.getD_eq_getElem _ _ hk, hget] at hw
      simp only [hw, hxs0]
      exact beq_self_eq_true _
    have hally : ys.all
        (fun y2 => (y2.headD []).length == ((ys.headD []).headD []).length) = true := by
      rw [List.all_eq_true]
      intro y2 hym
      obtain ⟨k, hk, hget⟩ := List.mem_iff_getElem.mp hym
      have hw := hy k (hylen ▸ hk)
      rw [List.getD_eq_getElem _ _ hk, hget] at hw
      simp only [hw, hys0]
      exact beq_self_eq_true _
    rw [create_lagged_data]
    simp only [hr]
    rw [if_neg (by simpa using hne), if_pos hallx, if_pos hally]
    exact ⟨_, rfl⟩
  · intro sp targets pcs fcs xs ys tls hbs hne hxf
    rw [create_lagged_data]
    simp only [hbs]
    rw [if_neg (by simpa using hne),
      if_neg (fun hcontra => by rw [hxf] at hcontra; exact absurd hcontra (by simp))]

/-- C6 counterexample to the unconditional reading "the builder raises an
error iff zero rows remain for some series": two length-5 targets, each with
past covariate lag `-1`, where the first series' covariate has one component
and the second's (`pcov2`) has two.  Each series individually succeeds and
retains 4 rows, yet the call fails: the per-series feature matrices have
widths 2 and 3, so the final `np.concatenate` raises its dimension error. -/
theorem claim6_counterexample :
    (seriesResult ⟨1, [-1], [-1], [], none, true, true⟩ 2 0
        (tsFrame (mkSeries1 (vr 5))) (some (tsFrame (mkSeries1 (vr 5)))) none).map
      (fun r => (r.2.2).length) = .ok 4
  ∧ (seriesResult ⟨1, [-1], [-1], [], none, true, true⟩ 2 1
        (tsFrame (mkSeries1 (vr 5))) (some (tsFrame pcov2)) none).map
      (fun r => (r.2.2).length) = .ok 4
  ∧ create_lagged_data ⟨1, [-1], [-1], [], none, true, true⟩
        [mkSeries1 (vr 5), mkSeries1 (vr 5)] (some [mkSeries1 (vr 5), pcov2]) none =
      .error
        "all the input array dimensions except for the concatenation axis must match exactly" :=
  ⟨rfl, rfl, rfl⟩

lemma rowAllSome_take {r : List Val} (h : rowAllSome r = true) (n : Nat) :
    rowAllSome (r.take n) = true := by
  rw [rowAllSome, List.all_eq_true] at h ⊢
  exact fun v hv => h v (List.take_subset n r hv)

lemma rowAllSome_drop {r : List Val} (h : rowAllSome r = true) (n : Nat) :
    rowAllSome (r.drop n) = true := by
  rw [rowAllSome, List.all_eq_true] at h ⊢
  exact fun v hv => h v (List.drop_subset n r hv)

/-- C2: mode-dependent row filtering: every retained row has all feature
values present; in training mode every retained row also has all target
values present; conversely a row of the combined frame whose feature cells
are present (and, in training mode, whose target cells are present) is
retained.  Concretely, for the series `[1,2,3,4,NaN]` with lags `[-1]` and
horizon 1, training mode retains timestamps `[1,2,3]` while inference mode
retains `[1,2,3,4]` — the feature-complete, target-missing last row is
kept. -/
theorem claim2_mode_dependent_filtering :
    (∀ (sp : LagSpec) (nS i : Nat) (dft : DF String) (pc fc : Option (DF String))
        (dfXy : DF ColTag) (nf : Nat) (x y : List (List Val)) (T : List Int),
        sp.maxSamples = none →
        seriesXyFrame sp dft pc fc = .ok (dfXy, nf) →
        seriesResult sp nS i dft pc fc = .ok (x, y, T) →
        (∀ r ∈ x, rowAllSome r = true)
        ∧ (sp.isTraining = true → ∀ r ∈ y, rowAllSome r = true)
        ∧ (∀ t r, (t, r) ∈ dfXy.index.zip dfXy.data →
            rowAllSome (r.take nf) = true →
            (sp.isTraining = true → rowAllSome r = true) →
            t ∈ T))
  ∧ (create_lagged_data spHorizon1 [mkSeries1 [some 1, some 2, some 3, some 4, none]]
        none none =
      .ok ([[some 1], [some 2], [some 3]], [[some 2], [some 3], [some 4]], [[1, 2, 3]]))
  ∧ (create_lagged_data ⟨1, [-1], [], [], none, false, true⟩
        [mkSeries1 [some 1, some 2, some 3, some 4, none]] none none =
      .ok ([[some 1], [some 2], [some 3], [some 4]],
           [[some 2], [some 3], [some 4], [none]], [[1, 2, 3, 4]])) := by
  refine ⟨?_, by rfl, by rfl⟩
  intro sp nS i dft pc fc dfXy nf x y T hms hxy hok
  obtain ⟨F, hFdef⟩ : ∃ F, (if sp.isTraining = true then dropnaAll dfXy
      else dropnaSubset nf dfXy) = F := ⟨_, rfl⟩
  have hsf : seriesFiltered sp dft pc fc = .ok (F, nf) := by
    rw [seriesFiltered]
    simp only [hxy, hms]
    rw [applyCap, hFdef]
  rw [seriesResult] at hok
  simp only [hsf] at hok
  split at hok
  · exact absurd hok (by simp)
  · simp only [Except.ok.injEq, Prod.mk.injEq] at hok
    obtain ⟨hx, hy, hT⟩ := hok
    refine ⟨?_, ?_, ?_⟩
    · intro r hr
      rw [← hx] at hr
      rw [List.mem_map] at hr
      obtain ⟨r0, hr0, hre⟩ := hr
      subst hre
      rw [← hFdef] at hr0
      by_cases ht : sp.isTraining
      · rw [if_pos ht] at hr0
        simp only [dropnaAll, List.mem_map] at hr0
        obtain ⟨pr, hpr, hpe⟩ := hr0
        subst hpe
        have h5 := List.of_mem_filter hpr
        exact rowAllSome_take h5 nf
      · rw [if_neg (by simpa using ht)] at hr0
        simp only [dropnaSubset, List.mem_map] at hr0
        obtain ⟨pr, hpr, hpe⟩ := hr0
        subst hpe
        have h5 := List.of_mem_filter hpr
        exact h5
    · intro ht r hr
      rw [← hy] at hr
      rw [List.mem_map] at hr
      obtain ⟨r0, hr0, hre⟩ := hr
      subst hre
      rw [← hFdef, if_pos ht] at hr0
      simp only [dropnaAll, List.mem_map] at hr0
      obtain ⟨pr, hpr, hpe⟩ := hr0
      subst hpe
      have h5 := List.of_mem_filter hpr
      exact rowAllSome_drop h5 nf
    · intro t r hmem htake hfull
      rw [← hT, ← hFdef]
      by_cases ht : sp.isTraining
      · rw [if_pos ht]
        simp only [dropnaAll, List.mem_map]
        refine ⟨(t, r), ?_, rfl⟩
        rw [List.mem_filter]
        exact ⟨hmem, hfull ht⟩
      · rw [if_neg (by simpa using ht)]
        simp only [dropnaSubset, List.mem_map]
        refine ⟨(t, r), ?_, rfl⟩
        rw [List.mem_filter]
        exact ⟨hmem, htake⟩

lemma allSome_append (a b : List Val) :
    rowAllSome (a ++ b) = (rowAllSome a && rowAllSome b) := List.all_append

lemma allSome_replicate (n : Nat) :
    rowAllSome (List.replicate n (none : Val)) = decide (n = 0) := by
  cases n with
  | zero => rfl
  | succ m => simp [rowAllSome]

lemma zip_self_map (l : List Int) (g : Int → List Val) :
    l.zip (l.map g) = l.map (fun a => (a, g a)) := by
  conv_lhs => rw [show l.zip (l.map g) = (l.map id).zip (l.map g) from by rw [List.map_id]]
  rw [List.zip_map']
  rfl

lemma allSome_shift_row (dft : DF String) (hwf : DFwf dft)
    (hnn : ∀ r ∈ dft.data, rowAllSome r = true) (k : Int) (hk : 0 ≤ k) {p : Nat}
    (hp : p < dft.index.length) (d : List Val) :
    rowAllSome ((dfShift (-k) dft).data.getD p d) =
      (decide ((p : Int) + k < (dft.index.length : Int)) || decide (dft.cols.length = 0)) := by
  rw [dfShift]
  simp only
  rw [getD_map_range hp]
  by_cases hb : (p : Int) + k < (dft.index.length : Int)
  · rw [if_pos (by constructor <;> omega)]
    have hlt : ((p : Int) - -k).toNat < dft.data.length := by
      rw [hwf.1]; omega
    rw [List.getD_eq_getElem _ _ hlt]
    have hmem := List.getElem_mem hlt
    rw [hnn _ hmem]
    simp [hb]
  · rw [if_neg (by omega)]
    rw [allSome_replicate]
    simp [hb]

lemma yBlocks_index {dft : DF String} {ocl : Nat} {mm : Bool} :
    ∀ b ∈ yBlocks dft ocl mm, b.index = dft.index := by
  intro b hb
  rw [yBlocks] at hb
  by_cases hm : mm
  · rw [if_pos hm] at hb
    rw [List.mem_map] at hb
    obtain ⟨k, -, hk⟩ := hb
    subst hk
    rfl
  · rw [if_neg hm] at hb
    simp only [List.mem_singleton] at hb
    subst hb
    rfl

lemma yBlocks_ne_nil {dft : DF String} {ocl : Nat} {mm : Bool} (hocl : 1 ≤ ocl) :
    yBlocks dft ocl mm ≠ [] := by
  rw [yBlocks]
  by_cases hm : mm
  · rw [if_pos hm]
    simp
    omega
  · rw [if_neg hm]
    simp

lemma concatCols_uniform (dfs : List (DF α)) (idx0 : List Int) (hne : dfs ≠ [])
    (hidx : ∀ d ∈ dfs, d.index = idx0) :
    concatCols dfs = ⟨idx0, dfs.flatMap (fun e => e.cols),
      (List.range idx0.length).map (fun i =>
        dfs.flatMap (fun e => e.data.getD i (List.replicate e.cols.length none)))⟩ := by
  cases dfs with
  | nil => exact absurd rfl hne
  | cons d rest =>
    have hd : d.index = idx0 := hidx d (by simp)
    rw [concatCols]
    simp only
    rw [if_pos ?hc]
    case hc =>
      rw [List.all_eq_true]
      intro e he
      rw [beq_iff_eq, hidx e (by simp [he]), hd]
    rw [hd]

lemma horizonRow_allSome (dft : DF String) (hwf : DFwf dft)
    (hnn : ∀ r ∈ dft.data, rowAllSome r = true) (p : Nat) (k : Int) (hk : 0 ≤ k) :
    rowAllSome ((horizonBlock dft k).data.getD p
        (List.replicate (horizonBlock dft k).cols.length none)) =
      (decide ((p : Int) + k < (dft.index.length : Int)) ||
        decide (dft.cols.length = 0)) := by
  by_cases hp : p < dft.index.length
  · exact allSome_shift_row dft hwf hnn k hk hp _
  · rw [List.getD_eq_default _ _ (by
      show (horizonBlock dft k).data.length ≤ p
      simp only [horizonBlock, dfRelabel, dfShift, List.length_map, List.length_range]
      omega)]
    rw [show (horizonBlock dft k).cols.length = dft.cols.length from by
      simp [horizonBlock, dfRelabel, dfShift]]
    rw [allSome_replicate]
    have hb : ¬((p : Int) + k < (dft.index.length : Int)) := by omega
    simp [hb]

lemma yrow_allSome_eq (dft : DF String) (hwf : DFwf dft)
    (hnn : ∀ r ∈ dft.data, rowAllSome r = true) (ocl : Nat) (hocl : 1 ≤ ocl) (p : Nat) :
    rowAllSome ((yBlocks dft ocl true).flatMap
        (fun e => e.data.getD p (List.replicate e.cols.length none))) =
      rowAllSome ((yBlocks dft ocl false).flatMap
        (fun e => e.data.getD p (List.replicate e.cols.length none))) := by
  rw [Bool.eq_iff_iff, rowAllSome, rowAllSome, List.all_flatMap, List.all_flatMap,
    List.all_eq_true, List.all_eq_true]
  constructor
  · intro h b hb
    rw [yBlocks, if_neg (by simp)] at hb
    simp only [List.mem_singleton] at hb
    subst hb
    have hmem : horizonBlock dft ((ocl - 1 : Nat) : Int) ∈ yBlocks dft ocl true := by
      rw [yBlocks, if_pos rfl]
      exact List.mem_map.mpr ⟨ocl - 1, List.mem_range.mpr (by omega), rfl⟩
    have hh := h _ hmem
    have e1 := horizonRow_allSome dft hwf hnn p ((ocl - 1 : Nat) : Int) (by omega)
    have e2 := horizonRow_allSome dft hwf hnn p ((ocl : Int) - 1) (by omega)
    simp only [rowAllSome] at e1 e2
    rw [e1] at hh
    rw [e2]
    simp only [Bool.or_eq_true, decide_eq_true_eq] at hh ⊢
    rcases hh with hh | hh
    · left
      omega
    · right
      exact hh
  · intro h b hb
    rw [yBlocks, if_pos rfl] at hb
    rw [List.mem_map] at hb
    obtain ⟨k, hk, hbk⟩ := hb
    rw [List.mem_range] at hk
    subst hbk
    have hs : horizonBlock dft ((ocl : Int) - 1) ∈ yBlocks dft ocl false := by
      rw [yBlocks, if_neg (by simp)]
      simp
    have hh := h _ hs
    have e1 := horizonRow_allSome dft hwf hnn p ((ocl : Int) - 1) (by omega)
    have e2 := horizonRow_allSome dft hwf hnn p (k : Int) (by omega)
    simp only [rowAllSome] at e1 e2
    rw [e1] at hh
    rw [e2]
    simp only [Bool.or_eq_true, decide_eq_true_eq] at hh ⊢
    rcases hh with hh | hh
    · left
      omega
    · right
      exact hh

lemma wf_dfShift {df : DF α} (h : DFwf df) (p : Int) : DFwf (dfShift p df) := by
  constructor
  · simp [dfShift]
  · intro r hr
    simp only [dfShift, List.mem_map] at hr
    obtain ⟨i, -, hi⟩ := hr
    subst hi
    split
    · by_cases hlt : ((i : Int) - p).toNat < df.data.length
      · rw [List.getD_eq_getElem _ _ hlt]
        exact h.2 _ (List.getElem_mem hlt)
      · rw [List.getD_eq_default _ _ (by omega)]
        simp [dfShift]
    · simp [dfShift]

lemma wf_dfRelabel {df : DF α} (h : DFwf df) (f : α → β) : DFwf (dfRelabel f df) := by
  constructor
  · exact h.1
  · intro r hr
    simp only [dfRelabel, List.length_map]
    exact h.2 r hr

lemma dfRowAt_length {df : DF α} (h : DFwf df) (t : Int) :
    (dfRowAt df t).length = df.cols.length := by
  rw [dfRowAt]
  cases hf : df.index.findIdx? (fun u => u == t) with
  | none => simp
  | some i =>
    show (df.data.getD i (List.replicate df.cols.length none)).length = df.cols.length
    by_cases hlt : i < df.data.length
    · rw [List.getD_eq_getElem _ _ hlt]
      exact h.2 _ (List.getElem_mem hlt)
    · rw [List.getD_eq_default _ _ (by omega)]
      simp

lemma wf_dfReindex {df : DF α} (h : DFwf df) (idx : List Int) : DFwf (dfReindex idx df) := by
  constructor
  · simp [dfReindex]
  · intro r hr
    simp only [dfReindex, List.mem_map] at hr
    obtain ⟨t, -, ht⟩ := hr
    subst ht
    exact dfRowAt_length h t

lemma wf_concatCols {dfs : List (DF α)} (h : ∀ d ∈ dfs, DFwf d) : DFwf (concatCols dfs) := by
  cases dfs with
  | nil => exact ⟨rfl, by intro r hr; simp [concatCols] at hr⟩
  | cons d rest =>
    have hrow : ∀ (g : DF α → List Val),
        (∀ e ∈ d :: rest, (g e).length = e.cols.length) →
        ∀ i ∈ (d :: rest).flatMap g, True := by intro _ _ _ _; trivial
    rw [concatCols]
    simp only
    split
    · constructor
      · simp
      · intro r hr
        simp only [List.mem_map] at hr
        obtain ⟨i, -, hi⟩ := hr
        subst hi
        rw [List.length_flatMap, List.length_flatMap]
        refine congrArg List.sum ?_
        refine List.map_congr_left ?_
        intro e he
        simp only [Function.comp]
        by_cases hlt : i < e.data.length
        · rw [List.getD_eq_getElem _ _ hlt]
          exact (h e he).2 _ (List.getElem_mem hlt)
        · rw [List.getD_eq_default _ _ (by omega)]
          simp
    · constructor
      · simp
      · intro r hr
        simp only [List.mem_map] at hr
        obtain ⟨t, -, ht⟩ := hr
        subst ht
        rw [List.length_flatMap, List.length_flatMap]
        refine congrArg List.sum ?_
        refine List.map_congr_left ?_
        intro e he
        simp only [Function.comp]
        exact dfRowAt_length (h e he) t

lemma wf_covFeatureBlocks {it : Bool} {tgtIdx : List Int} {name : String}
    {covFrame : Option (DF String)} {lagsCov : List Int} {bl : List (DF ColTag)}
    (hwf : DFwfOpt covFrame)
    (h : covFeatureBlocks it tgtIdx name covFrame lagsCov = .ok bl) :
    ∀ b ∈ bl, DFwf b := by
  cases covFrame with
  | none =>
    rw [covFeatureBlocks] at h
    split at h
    · simp only [Except.ok.injEq] at h
      subst h
      intro b hb
      simp at hb
    · exact absurd h (by simp)
  | some dfc =>
    rw [covFeatureBlocks] at h
    split at h
    · simp only [Except.ok.injEq] at h
      subst h
      intro b hb
      simp at hb
    · simp only [Except.ok.injEq] at h
      subst h
      intro b hb
      rw [List.mem_map] at hb
      obtain ⟨lag, -, hl⟩ := hb
      subst hl
      have hwfc : DFwf dfc := hwf
      apply wf_dfRelabel
      apply wf_dfShift
      split
      · exact hwfc
      · exact wf_dfReindex hwfc _

lemma wf_buildDfX {sp : LagSpec} {dft : DF String} {pc fc : Option (DF String)}
    {dfX : DF ColTag} (hwft : DFwf dft) (hwfp : DFwfOpt pc) (hwff : DFwfOpt fc)
    (h : buildDfX sp dft pc fc = .ok dfX) : DFwf dfX := by
  rw [buildDfX] at h
  cases hp : covFeatureBlocks sp.isTraining dft.index "past" pc sp.lagsPast with
  | error e => simp only [hp] at h; exact absurd h (by simp)
  | ok pastBlocks =>
    simp only [hp] at h
    cases hf : covFeatureBlocks sp.isTraining dft.index "future" fc sp.lagsFuture with
    | error e => simp only [hf] at h; exact absurd h (by simp)
    | ok futBlocks =>
      simp only [hf] at h
      split at h
      · exact absurd h (by simp)
      · simp only [Except.ok.injEq] at h
        subst h
        apply wf_concatCols
        intro b hb
        rw [List.append_assoc, List.mem_append] at hb
        rcases hb with hb | hb
        · rw [targetFeatureBlocks, List.mem_map] at hb
          obtain ⟨lag, -, hl⟩ := hb
          subst hl
          exact wf_dfRelabel (wf_dfShift hwft _) _
        · rw [List.mem_append] at hb
          rcases hb with hb | hb
          · exact wf_covFeatureBlocks hwfp hp b hb
          · exact wf_covFeatureBlocks hwff hf b hb

lemma take_append_eq_left (a b : List Val) (n : Nat) (h : a.length = n) :
    (a ++ b).take n = a := by
  rw [← h, List.take_left]

lemma concatPair_filtered_eq (dfX Ym Ys : DF ColTag) (I : List Int) (hwfX : DFwf dfX)
    (hidxm : Ym.index = I) (hidxs : Ys.index = I)
    (hdlm : Ym.data.length = I.length) (hdls : Ys.data.length = I.length)
    (hrow : ∀ p, rowAllSome (Ym.data.getD p (List.replicate Ym.cols.length none)) =
        rowAllSome (Ys.data.getD p (List.replicate Ys.cols.length none)))
    (training : Bool) :
    ((if training then dropnaAll (concatCols [dfX, Ym])
        else dropnaSubset dfX.cols.length (concatCols [dfX, Ym])).index =
      (if training then dropnaAll (concatCols [dfX, Ys])
        else dropnaSubset dfX.cols.length (concatCols [dfX, Ys])).index)
    ∧ ((if training then dropnaAll (concatCols [dfX, Ym])
        else dropnaSubset dfX.cols.length (concatCols [dfX, Ym])).data.length =
      (if training then dropnaAll (concatCols [dfX, Ys])
        else dropnaSubset dfX.cols.length (concatCols [dfX, Ys])).data.length) := by
  have hxlen : ∀ p, (dfX.data.getD p (List.replicate dfX.cols.length none)).length =
      dfX.cols.length := by
    intro p
    by_cases hlt : p < dfX.data.length
    · rw [List.getD_eq_getElem _ _ hlt]
      exact hwfX.2 _ (List.getElem_mem hlt)
    · rw [List.getD_eq_default _ _ (by omega)]
      simp
  by_cases hc : (I == dfX.index) = true
  · have hm : concatCols [dfX, Ym] = ⟨dfX.index, dfX.cols ++ (Ym.cols ++ []),
        (List.range dfX.index.length).map (fun i =>
          dfX.data.getD i (List.replicate dfX.cols.length none) ++
            (Ym.data.getD i (List.replicate Ym.cols.length none) ++ []))⟩ := by
      rw [concatCols]
      simp only [List.all_cons, List.all_nil, Bool.and_true, hidxm, hc, if_true,
        List.flatMap_cons, List.flatMap_nil]
    have hs : concatCols [dfX, Ys] = ⟨dfX.index, dfX.cols ++ (Ys.cols ++ []),
        (List.range dfX.index.length).map (fun i =>
          dfX.data.getD i (List.replicate dfX.cols.length none) ++
            (Ys.data.getD i (List.replicate Ys.cols.length none) ++ []))⟩ := by
      rw [concatCols]
      simp only [List.all_cons, List.all_nil, Bool.and_true, hidxs, hc, if_true,
        List.flatMap_cons, List.flatMap_nil]
    have hK : ∀ p ∈ List.range dfX.index.length,
        (fun p => (if training then
            rowAllSome (dfX.data.getD p (List.replicate dfX.cols.length none) ++
              (Ym.data.getD p (List.replicate Ym.cols.length none) ++ []))
          else
            rowAllSome ((dfX.data.getD p (List.replicate dfX.cols.length none) ++
              (Ym.data.getD p (List.replicate Ym.cols.length none) ++ [])).take
                dfX.cols.length))) p =
        (fun p => (if training then
            rowAllSome (dfX.data.getD p (List.replicate dfX.cols.length none) ++
              (Ys.data.getD p (List.replicate Ys.cols.length none) ++ []))
          else
            rowAllSome ((dfX.data.getD p (List.replicate dfX.cols.length none) ++
              (Ys.data.getD p (List.replicate Ys.cols.length none) ++ [])).take
                dfX.cols.length))) p := by
      intro p hp
      by_cases ht : training
      · simp only [ht, if_true, List.append_nil, allSome_append, hrow p]
      · simp only [ht, if_false, Bool.false_eq_true,
          take_append_eq_left _ _ _ (hxlen p)]
    cases training with
    | true =>
      rw [if_pos rfl, if_pos rfl, hm, hs]
      simp only [dropnaAll]
      rw [zip_left_map_getD dfX.index _ rfl, zip_left_map_getD dfX.index _ rfl,
        List.filter_map, List.filter_map]
      have hKK : List.filter ((fun p => rowAllSome p.2) ∘ fun p =>
            (dfX.index.getD p 0,
              dfX.data.getD p (List.replicate dfX.cols.length none) ++
                (Ym.data.getD p (List.replicate Ym.cols.length none) ++ [])))
          (List.range dfX.index.length) =
          List.filter ((fun p => rowAllSome p.2) ∘ fun p =>
            (dfX.index.getD p 0,
              dfX.data.getD p (List.replicate dfX.cols.length none) ++
                (Ys.data.getD p (List.replicate Ys.cols.length none) ++ [])))
          (List.range dfX.index.length) := by
        refine List.filter_congr ?_
        intro p hp
        have := hK p hp
        simp only [if_pos rfl] at this
        simpa [Function.comp] using this
      rw [hKK]
      constructor
      · simp [List.map_map, Function.comp]
      · simp
    | false =>
      rw [if_neg (by simp), if_neg (by simp), hm, hs]
      simp only [dropnaSubset]
      rw [zip_left_map_getD dfX.index _ rfl, zip_left_map_getD dfX.index _ rfl,
        List.filter_map, List.filter_map]
      have hKK : List.filter ((fun p => rowAllSome (p.2.take dfX.cols.length)) ∘ fun p =>
            (dfX.index.getD p 0,
              dfX.data.getD p (List.replicate dfX.cols.length none) ++
                (Ym.data.getD p (List.replicate Ym.cols.length none) ++ [])))
          (List.range dfX.index.length) =
          List.filter ((fun p => rowAllSome (p.2.take dfX.cols.length)) ∘ fun p =>
            (dfX.index.getD p 0,
              dfX.data.getD p (List.replicate dfX.cols.length none) ++
                (Ys.data.getD p (List.replicate Ys.cols.length none) ++ [])))
          (List.range dfX.index.length) := by
        refine List.filter_congr ?_
        intro p hp
        have := hK p hp
        simp only [if_neg (by simp : ¬(false = true))] at this
        simpa [Function.comp] using this
      rw [hKK]
      constructor
      · simp [List.map_map, Function.comp]
      · simp
  · have hrowAt : ∀ t, rowAllSome (dfRowAt Ym t) = rowAllSome (dfRowAt Ys t) := by
      intro t
      rw [dfRowAt, dfRowAt, hidxm, hidxs]
      cases hfind : I.findIdx? (fun u => u == t) with
      | none =>
        have := hrow I.length
        rw [List.getD_eq_default _ _ (by omega), List.getD_eq_default _ _ (by omega)] at this
        exact this
      | some i => exact hrow i
    have hm : concatCols [dfX, Ym] = ⟨mergeUnion dfX.index I, dfX.cols ++ (Ym.cols ++ []),
        (mergeUnion dfX.index I).map (fun t => dfRowAt dfX t ++ (dfRowAt Ym t ++ []))⟩ := by
      rw [concatCols]
      simp only [List.all_cons, List.all_nil, Bool.and_true, hidxm, hc, if_false,
        List.flatMap_cons, List.flatMap_nil, List.foldl_cons, List.foldl_nil,
        Bool.false_eq_true]
    have hs : concatCols [dfX, Ys] = ⟨mergeUnion dfX.index I, dfX.cols ++ (Ys.cols ++ []),
        (mergeUnion dfX.index I).map (fun t => dfRowAt dfX t ++ (dfRowAt Ys t ++ []))⟩ := by
      rw [concatCols]
      simp only [List.all_cons, List.all_nil, Bool.and_true, hidxs, hc, if_false,
        List.flatMap_cons, List.flatMap_nil, List.foldl_cons, List.foldl_nil,
        Bool.false_eq_true]
    have hK : ∀ t ∈ mergeUnion dfX.index I,
        (if training then rowAllSome (dfRowAt dfX t ++ (dfRowAt Ym t ++ []))
          else rowAllSome ((dfRowAt dfX t ++ (dfRowAt Ym t ++ [])).take dfX.cols.length)) =
        (if training then rowAllSome (dfRowAt dfX t ++ (dfRowAt Ys t ++ []))
          else rowAllSome ((dfRowAt dfX t ++ (dfRowAt Ys t ++ [])).take dfX.cols.length)) := by
      intro t ht
      by_cases htr : training
      · simp only [htr, if_true, List.append_nil, allSome_append, hrowAt t]
      · simp only [htr, if_false, Bool.false_eq_true,
          take_append_eq_left _ _ _ (dfRowAt_length hwfX t)]
    cases training with
    | true =>
      rw [if_pos rfl, if_pos rfl, hm, hs]
      simp only [dropnaAll]
      rw [zip_self_map, zip_self_map, List.filter_map, List.filter_map]
      have hKK : List.filter ((fun p => rowAllSome p.2) ∘ fun t =>
            (t, dfRowAt dfX t ++ (dfRowAt Ym t ++ []))) (mergeUnion dfX.index I) =
          List.filter ((fun p => rowAllSome p.2) ∘ fun t =>
            (t, dfRowAt dfX t ++ (dfRowAt Ys t ++ []))) (mergeUnion dfX.index I) := by
        refine List.filter_congr ?_
        intro t ht
        have := hK t ht
        simp only [if_pos rfl] at this
        simpa [Function.comp] using this
      rw [hKK]
      constructor
      · simp [List.map_map, Function.comp]
      · simp
    | false =>
      rw [if_neg (by simp), if_neg (by simp), hm, hs]
      simp only [dropnaSubset]
      rw [zip_self_map, zip_self_map, List.filter_map, List.filter_map]
      have hKK : List.filter ((fun p => rowAllSome (p.2.take dfX.cols.length)) ∘ fun t =>
            (t, dfRowAt dfX t ++ (dfRowAt Ym t ++ []))) (mergeUnion dfX.index I) =
          List.filter ((fun p => rowAllSome (p.2.take dfX.cols.length)) ∘ fun t =>
            (t, dfRowAt dfX t ++ (dfRowAt Ys t ++ []))) (mergeUnion dfX.index I) := by
        refine List.filter_congr ?_
        intro t ht
        have := hK t ht
        simp only [if_neg (by simp : ¬(false = true))] at this
        simpa [Function.comp] using this
      rw [hKK]
      constructor
      · simp [List.map_map, Function.comp]
      · simp

lemma yBlocks_cols_nil {dft : DF String} {ocl : Nat} {mm : Bool} {b : DF ColTag}
    (hb : b ∈ yBlocks dft ocl mm) : b.cols = [] ↔ dft.cols = [] := by
  rw [yBlocks] at hb
  by_cases hm : mm
  · rw [if_pos hm, List.mem_map] at hb
    obtain ⟨k, -, hk⟩ := hb
    subst hk
    simp [horizonBlock, dfRelabel, dfShift]
  · rw [if_neg hm] at hb
    simp only [List.mem_singleton] at hb
    subst hb
    simp [horizonBlock, dfRelabel, dfShift]

lemma yBlocks_flat_cols_nil (dft : DF String) (ocl : Nat) (mm : Bool) (hocl : 1 ≤ ocl) :
    ((yBlocks dft ocl mm).flatMap (fun e => e.cols) = [] ↔ dft.cols = []) := by
  rw [List.flatMap_eq_nil_iff]
  constructor
  · intro h
    obtain ⟨b, hb⟩ := List.exists_mem_of_ne_nil _ (yBlocks_ne_nil hocl)
    exact (yBlocks_cols_nil hb).mp (h b hb)
  · intro h b hb
    exact (yBlocks_cols_nil hb).mpr h

lemma applyCap_proj_eq (ms : Option Nat) (A B : DF ColTag) (h1 : A.index = B.index)
    (h2 : A.data.length = B.data.length) :
    (applyCap ms A).index = (applyCap ms B).index ∧
      (applyCap ms A).data.length = (applyCap ms B).data.length := by
  cases ms with
  | none => exact ⟨h1, h2⟩
  | some m =>
    by_cases hm : m = 0
    · simp only [applyCap, hm, if_pos]
      exact ⟨h1, h2⟩
    · simp only [applyCap, if_neg hm]
      refine ⟨?_, ?_⟩
      · rw [h1]
      · simp only [List.length_drop]
        rw [h2]

lemma seriesResult_singleStep_proj (sp : LagSpec) (nS i : Nat) (dft : DF String)
    (pc fc : Option (DF String)) (hwf : DFwf dft) (hwfp : DFwfOpt pc) (hwff : DFwfOpt fc)
    (hnn : ∀ r ∈ dft.data, rowAllSome r = true) (hocl : 1 ≤ sp.ocl)
    (hmm : sp.multiModels = false) :
    (seriesResult sp nS i dft pc fc).map (fun r => r.2.2) =
      (seriesResult {sp with multiModels := true} nS i dft pc fc).map (fun r => r.2.2) := by
  have hbx : buildDfX {sp with multiModels := true} dft pc fc = buildDfX sp dft pc fc := rfl
  cases hX : buildDfX sp dft pc fc with
  | error e =>
    have g1 : seriesFiltered sp dft pc fc = .error e := by
      rw [seriesFiltered, seriesXyFrame]
      simp only [hX]
    have g2 : seriesFiltered {sp with multiModels := true} dft pc fc = .error e := by
      rw [seriesFiltered, seriesXyFrame]
      simp only [hbx, hX]
    rw [seriesResult, seriesResult]
    simp only [g1, g2]
  | ok dfX =>
    have hwfX : DFwf dfX := wf_buildDfX hwf hwfp hwff hX
    have hys : (yBlocks dft sp.ocl false).isEmpty = false := by
      simp [yBlocks]
    have hym : (yBlocks dft sp.ocl true).isEmpty = false := by
      simp only [yBlocks, if_pos]
      rw [List.isEmpty_eq_false_iff_exists_mem]
      exact ⟨horizonBlock dft ((0 : Nat) : Int),
        List.mem_map.mpr ⟨0, List.mem_range.mpr (by omega), rfl⟩⟩
    have hxy1 : seriesXyFrame sp dft pc fc =
        .ok (concatCols [dfX, concatCols (yBlocks dft sp.ocl false)], dfX.cols.length) := by
      rw [seriesXyFrame]
      simp only [hX, hmm, hys, Bool.false_eq_true, if_false]
    have hxy2 : seriesXyFrame {sp with multiModels := true} dft pc fc =
        .ok (concatCols [dfX, concatCols (yBlocks dft sp.ocl true)], dfX.cols.length) := by
      rw [seriesXyFrame]
      simp only [hbx, hX]
      simp only [show ({sp with multiModels := true} : LagSpec).multiModels = true from rfl,
        show ({sp with multiModels := true} : LagSpec).ocl = sp.ocl from rfl, hym,
        Bool.false_eq_true, if_false]
    have hYm := concatCols_uniform (yBlocks dft sp.ocl true) dft.index
      (yBlocks_ne_nil hocl) yBlocks_index
    have hYs := concatCols_uniform (yBlocks dft sp.ocl false) dft.index
      (yBlocks_ne_nil hocl) yBlocks_index
    have hidxm : (concatCols (yBlocks dft sp.ocl true)).index = dft.index := by rw [hYm]
    have hidxs : (concatCols (yBlocks dft sp.ocl false)).index = dft.index := by rw [hYs]
    have hdlm : (concatCols (yBlocks dft sp.ocl true)).data.length = dft.index.length := by
      rw [hYm]
      simp
    have hdls : (concatCols (yBlocks dft sp.ocl false)).data.length = dft.index.length := by
      rw [hYs]
      simp
    have hrow : ∀ p, rowAllSome ((concatCols (yBlocks dft sp.ocl true)).data.getD p
        (List.replicate (concatCols (yBlocks dft sp.ocl true)).cols.length none)) =
        rowAllSome ((concatCols (yBlocks dft sp.ocl false)).data.getD p
        (List.replicate (concatCols (yBlocks dft sp.ocl false)).cols.length none)) := by
      intro p
      rw [hYm, hYs]
      simp only
      by_cases hp : p < dft.index.length
      · rw [getD_map_range hp, getD_map_range hp]
        exact yrow_allSome_eq dft hwf hnn sp.ocl hocl p
      · rw [List.getD_eq_default _ _ (by simp; omega), List.getD_eq_default _ _ (by simp; omega)]
        rw [allSome_replicate, allSome_replicate]
        have e1 := yBlocks_flat_cols_nil dft sp.ocl true hocl
        have e2 := yBlocks_flat_cols_nil dft sp.ocl false hocl
        simp only [← List.length_eq_zero] at e1 e2
        rw [Bool.eq_iff_iff]
        simp only [decide_eq_true_eq]
        rw [e1, e2]
    obtain ⟨hFidx, hFlen⟩ := concatPair_filtered_eq dfX
      (concatCols (yBlocks dft sp.ocl true)) (concatCols (yBlocks dft sp.ocl false))
      dft.index hwfX hidxm hidxs hdlm hdls hrow sp.isTraining
    have hsf1 : seriesFiltered sp dft pc fc = .ok
        (applyCap sp.maxSamples (if sp.isTraining then
          dropnaAll (concatCols [dfX, concatCols (yBlocks dft sp.ocl false)])
          else dropnaSubset dfX.cols.length
            (concatCols [dfX, concatCols (yBlocks dft sp.ocl false)])), dfX.cols.length) := by
      rw [seriesFiltered]
      simp only [hxy1]
    have hsf2 : seriesFiltered {sp with multiModels := true} dft pc fc = .ok
        (applyCap sp.maxSamples (if sp.isTraining then
          dropnaAll (concatCols [dfX, concatCols (yBlocks dft sp.ocl true)])
          else dropnaSubset dfX.cols.length
            (concatCols [dfX, concatCols (yBlocks dft sp.ocl true)])), dfX.cols.length) := by
      rw [seriesFiltered]
      simp only [hxy2]
    obtain ⟨hCidx, hClen⟩ := applyCap_proj_eq sp.maxSamples _ _ hFidx hFlen
    rw [seriesResult, seriesResult]
    simp only [hsf1, hsf2]
    by_cases h0 : (applyCap sp.maxSamples (if sp.isTraining = true then
        dropnaAll (concatCols [dfX, concatCols (yBlocks dft sp.ocl false)])
        else dropnaSubset dfX.cols.length
          (concatCols [dfX, concatCols (yBlocks dft sp.ocl false)]))).data.length = 0
    · have h0m : (applyCap sp.maxSamples (if sp.isTraining = true then
          dropnaAll (concatCols [dfX, concatCols (yBlocks dft sp.ocl true)])
          else dropnaSubset dfX.cols.length
            (concatCols [dfX, concatCols (yBlocks dft sp.ocl true)]))).data.length = 0 := by
        rw [hClen]
        exact h0
      rw [if_pos h0, if_pos h0m]
    · have h0m : ¬(applyCap sp.maxSamples (if sp.isTraining = true then
          dropnaAll (concatCols [dfX, concatCols (yBlocks dft sp.ocl true)])
          else dropnaSubset dfX.cols.length
            (concatCols [dfX, concatCols (yBlocks dft sp.ocl true)]))).data.length = 0 := by
        rw [hClen]
        exact h0
      rw [if_neg h0, if_neg h0m]
      simp only [Except.map]
      rw [hCidx]

/-- C7 counterexample: with target `[1,2,NaN,4,5,6]`, lags `[-1]`, horizon
length 2, training mode, single-step mode retains timestamps `[2,4]` while
multi-step mode retains `[4]` — the retained row sets differ, refuting the
claim that single-step mode aligns rows as though the full horizon were
used. -/
theorem claim7_counterexample :
    create_lagged_data ⟨2, [-1], [], [], none, true, false⟩
        [mkSeries1 [some 1, some 2, none, some 4, some 5, some 6]] none none =
      .ok ([[some 2], [some 4]], [[some 4], [some 6]], [[2, 4]])
    ∧ create_lagged_data ⟨2, [-1], [], [], none, true, true⟩
        [mkSeries1 [some 1, some 2, none, some 4, some 5, some 6]] none none =
      .ok ([[some 4]], [[some 5, some 6]], [[4]])
    ∧ ([[(2 : Int), 4]] : List (List Int)) ≠ [[4]] :=
  ⟨rfl, rfl, by decide⟩

/-- C7 (amended): with multi-step targets disabled, `y` is exactly one block
of target-component columns at horizon step `ocl - 1` (shift by
`-(ocl - 1)`); and for a well-formed target series with no missing values,
the per-series outcome — error or retained timestamp index — is identical to
multi-step mode's. -/
theorem claim7_single_step_amended :
    (∀ (dft : DF String) (ocl : Nat),
        (concatCols (yBlocks dft ocl false)).cols =
          dft.cols.map (fun c => ⟨c, "horizon", (ocl : Int) - 1⟩))
  ∧ (∀ (sp : LagSpec) (nS i : Nat) (dft : DF String) (pc fc : Option (DF String)),
      DFwf dft → DFwfOpt pc → DFwfOpt fc →
      (∀ r ∈ dft.data, rowAllSome r = true) → 1 ≤ sp.ocl → sp.multiModels = false →
      (seriesResult sp nS i dft pc fc).map (fun r => r.2.2) =
        (seriesResult {sp with multiModels := true} nS i dft pc fc).map
          (fun r => r.2.2)) := by
  constructor
  · intro dft ocl
    rw [concatCols_cols]
    simp [yBlocks, horizonBlock, dfRelabel, dfShift]
  · intro sp nS i dft pc fc hwf hwfp hwff hnn hocl hmm
    exact seriesResult_singleStep_proj sp nS i dft pc fc hwf hwfp hwff hnn hocl hmm

/-- Witness for C7: the amended equivalence applied at a concrete NaN-free
series of length 6 with horizon length 2. -/
theorem claim7_witness :
    (seriesResult ⟨2, [-1], [], [], none, true, false⟩ 1 0
        (tsFrame (mkSeries1 (vr 6))) none none).map (fun r => r.2.2) =
      (seriesResult ⟨2, [-1], [], [], none, true, true⟩ 1 0
        (tsFrame (mkSeries1 (vr 6))) none none).map (fun r => r.2.2) :=
  claim7_single_step_amended.2 ⟨2, [-1], [], [], none, true, false⟩ 1 0
    (tsFrame (mkSeries1 (vr 6))) none none (by constructor <;> decide)
    trivial trivial (by decide) (by decide) rfl

/-- C8 counterexample: for a two-component table with attributes `A, B`, the
appender flattens to `[1, 3, 2, 4]` (component varies fastest within each
attribute), not to the claim's "values varying fastest by attribute" order
`[1, 2, 3, 4]`; the appender call on that series appends `[1, 3, 2, 4]`. -/
theorem claim8_counterexample :
    staticRowFor ⟨["A", "B"], [[1, 2], [3, 4]]⟩ ["A", "B"] = [1, 3, 2, 4]
    ∧ specAttrFastestRow ⟨["A", "B"], [[1, 2], [3, 4]]⟩ ["A", "B"] = [1, 2, 3, 4]
    ∧ staticRowFor ⟨["A", "B"], [[1, 2], [3, 4]]⟩ ["A", "B"] ≠
        specAttrFastestRow ⟨["A", "B"], [[1, 2], [3, 4]]⟩ ["A", "B"]
    ∧ add_static_covariates ⟨none, some (-1), 1, none, none, none, some 1⟩ [[10]]
        [⟨[0, 1, 2, 3], ["c1", "c2"],
          [[some 1, some 1], [some 1, some 1], [some 1, some 1], [some 1, some 1]],
          some ⟨["A", "B"], [[1, 2], [3, 4]]⟩⟩] none none =
      .ok [[10, 1, 3, 2, 4]] :=
  ⟨rfl, rfl, by decide, rfl⟩

/-- C8 (amended): the appender computes the union of static covariate
attribute names over all series; each series' table is reindexed onto that
union with missing attributes filled by zero (a narrower table is padded,
never dropped), and flattened attribute-major, component-minor — one full
attribute column (all components) after another, values varying fastest by
component; the flattened row is tiled once per contributed feature row. -/
theorem claim8_flattening_amended :
    (∀ (sc : SCov) (names : List String),
        staticRowFor sc names =
          names.flatMap (fun a => sc.rows.map (fun r => scLookup sc r a)))
  ∧ (∀ (targets : List TSeries) (a : String),
        a ∈ unionColNames targets ↔
          ∃ ts ∈ targets, ∃ sc, ts.statics = some sc ∧ a ∈ sc.cols)
  ∧ (∀ (colNames : List String) (nComps : Nat) (pairs : List (TSeries × Int))
        (blocks : List (List (List ℚ))) (k : Nat) (ts : TSeries) (r : Int) (sc : SCov),
        buildBlocks colNames nComps pairs = .ok blocks →
        k < pairs.length → pairs.getD k (tsDefault, 0) = (ts, r) →
        ts.statics = some sc →
        blocks.getD k [] = List.replicate r.toNat (staticRowFor sc colNames)) := by
  refine ⟨?_, ?_, ?_⟩
  · intro sc names
    rw [staticRowFor, flattenColMajor, scovReindex]
    rw [← flatMap_range_getD names "" (fun a => sc.rows.map (fun r => scLookup sc r a))]
    refine flatMap_congr_mem ?_
    intro j hj
    rw [List.mem_range] at hj
    rw [List.map_map]
    refine List.map_congr_left ?_
    intro r hr
    simp only [Function.comp]
    exact getD_map_lt _ hj _ ""
  · intro targets a
    simp only [unionColNames, List.mem_dedup, List.mem_flatMap, List.mem_filterMap]
    constructor
    · rintro ⟨sc, ⟨ts, hts, hsc⟩, ha⟩
      exact ⟨ts, hts, sc, hsc, ha⟩
    · rintro ⟨ts, hts, sc, hsc, ha⟩
      exact ⟨sc, ⟨ts, hts, hsc⟩, ha⟩
  · intro colNames nComps pairs
    induction pairs with
    | nil =>
      intro blocks k ts r sc hb hk
      exact absurd hk (by simp)
    | cons p0 rest ih =>
      intro blocks k ts r sc hb hk hget hsc
      obtain ⟨t0, r0⟩ := p0
      rw [buildBlocks] at hb
      split at hb
      · exact absurd hb (by simp)
      · cases hrec : buildBlocks colNames nComps rest with
        | error e => rw [hrec] at hb; exact absurd hb (by simp)
        | ok bs =>
          rw [hrec] at hb
          simp only [Except.ok.injEq] at hb
          subst hb
          cases k with
          | zero =>
            simp only [List.getD_cons_zero] at hget
            rw [Prod.mk.injEq] at hget
            obtain ⟨h1, h2⟩ := hget
            subst h1
            subst h2
            simp only [List.getD_cons_zero, hsc]
          | succ kk =>
            simp only [List.getD_cons_succ] at hget
            simp only [List.getD_cons_succ]
            exact ih bs kk ts r sc hrec (by simpa using hk) hget hsc

/-- Witness for C8: the tiling conjunct applied at a one-attribute,
one-component table repeated twice. -/
theorem claim8_witness :
    buildBlocks ["A"] 1 [(⟨[0, 1, 2], ["c"], [[some 1], [some 2], [some 3]],
        some ⟨["A"], [[5]]⟩⟩, 2)] = .ok [[[5], [5]]] ∧
    ([[[5], [5]]] : List (List (List ℚ))).getD 0 [] =
      List.replicate (2 : Int).toNat
        (staticRowFor ⟨["A"], [[5]]⟩ ["A"]) :=
  ⟨rfl, claim8_flattening_amended.2.2 ["A"] 1
    [(⟨[0, 1, 2], ["c"], [[some 1], [some 2], [some 3]], some ⟨["A"], [[5]]⟩⟩, 2)]
    [[[5], [5]]] 0 _ 2 ⟨["A"], [[5]]⟩ rfl (by decide) rfl rfl⟩

/-- C9: every series without static covariates contributes a zero-filled
static row of width `|attribute union| * n_components`, tiled over its
repetition count; concretely (P6), for two single-component series where
only the first carries attribute `A`, the appended matrix gains exactly one
column and the second series' portion of it is entirely zero. -/
theorem claim9_zero_row_substitution :
    (∀ (colNames : List String) (nComps : Nat) (pairs : List (TSeries × Int))
        (blocks : List (List (List ℚ))) (k : Nat) (ts : TSeries) (r : Int),
        buildBlocks colNames nComps pairs = .ok blocks →
        k < pairs.length → pairs.getD k (tsDefault, 0) = (ts, r) →
        ts.statics = none →
        blocks.getD k [] =
          List.replicate r.toNat (List.replicate (colNames.length * nComps) 0))
  ∧ add_static_covariates ⟨none, some (-1), 1, none, none, none, some 2⟩
      [[1], [2], [3], [4]]
      [⟨[0, 1, 2], ["c"], [[some 1], [some 2], [some 3]], some ⟨["A"], [[5]]⟩⟩,
       ⟨[0, 1, 2], ["c"], [[some 1], [some 2], [some 3]], none⟩] none none =
    .ok [[1, 5], [2, 5], [3, 0], [4, 0]] := by
  constructor
  · intro colNames nComps pairs
    induction pairs with
    | nil =>
      intro blocks k ts r hb hk
      exact absurd hk (by simp)
    | cons p0 rest ih =>
      intro blocks k ts r hb hk hget hsc
      obtain ⟨t0, r0⟩ := p0
      rw [buildBlocks] at hb
      split at hb
      · exact absurd hb (by simp)
      · cases hrec : buildBlocks colNames nComps rest with
        | error e => rw [hrec] at hb; exact absurd hb (by simp)
        | ok bs =>
          rw [hrec] at hb
          simp only [Except.ok.injEq] at hb
          subst hb
          cases k with
          | zero =>
            simp only [List.getD_cons_zero] at hget
            rw [Prod.mk.injEq] at hget
            obtain ⟨h1, h2⟩ := hget
            subst h1
            subst h2
            simp only [List.getD_cons_zero, hsc]
          | succ kk =>
            simp only [List.getD_cons_succ] at hget
            simp only [List.getD_cons_succ]
            exact ih bs kk ts r hrec (by simpa using hk) hget hsc
  · rfl

/-- Witness for C9: the zero-block conjunct applied at a concrete series
without static covariates, tiled twice. -/
theorem claim9_witness :
    buildBlocks ["A"] 1 [(⟨[0, 1, 2], ["c"], [[some 1], [some 2], [some 3]], none⟩, 2)] =
      .ok [[[0], [0]]] ∧
    ([[[0], [0]]] : List (List (List ℚ))).getD 0 [] =
      List.replicate (2 : Int).toNat (List.replicate (["A"].length * 1) 0) :=
  ⟨rfl, claim9_zero_row_substitution.1 ["A"] 1
    [(⟨[0, 1, 2], ["c"], [[some 1], [some 2], [some 3]], none⟩, 2)]
    [[[0], [0]]] 0 _ 2 rfl (by decide) rfl rfl⟩

/-- Witness for C2: the retention conjunct applied in inference mode at the
feature-complete, target-missing last row of `[1,2,3,4,NaN]`: timestamp 4 is
retained. -/
theorem claim2_witness :
    (4 : Int) ∈ ([1, 2, 3, 4] : List Int) :=
  (claim2_mode_dependent_filtering.1 ⟨1, [-1], [], [], none, false, true⟩ 1 0
      (tsFrame (mkSeries1 [some 1, some 2, some 3, some 4, none])) none none
      ⟨[0, 1, 2, 3, 4],
        [⟨"c", "target", -1⟩, ⟨"c", "horizon", 0⟩],
        [[none, some 1], [some 1, some 2], [some 2, some 3], [some 3, some 4],
          [some 4, none]]⟩ 1
      [[some 1], [some 2], [some 3], [some 4]]
      [[some 2], [some 3], [some 4], [none]]
      [1, 2, 3, 4] rfl rfl rfl).2.2 4 [some 4, none] (by decide) (by decide)
    (fun h => absurd h (by decide))

/-- Witness for C4: the invariant applied at the concrete call of the
end-to-end example. -/
theorem claim4_witness :
    ([[(1 : Int), 2, 3, 4]] : List (List Int)).length =
      [mkSeries1 [some 1, some 2, some 3, some 4, some 5]].length ∧
    ([[some (1 : ℚ)], [some 2], [some 3], [some 4]] : List (List Val)).length =
      (([[(1 : Int), 2, 3, 4]] : List (List Int)).map List.length).sum ∧
    ([[some (2 : ℚ)], [some 3], [some 4], [some 5]] : List (List Val)).length =
      (([[(1 : Int), 2, 3, 4]] : List (List Int)).map List.length).sum ∧
    ([[some (1 : ℚ)], [some 2], [some 3], [some 4]] : List (List Val)).length =
      ([[some (2 : ℚ)], [some 3], [some 4], [some 5]] : List (List Val)).length :=
  claim4_row_count_invariant.2 spHorizon1 [mkSeries1 [some 1, some 2, some 3, some 4, some 5]]
    none none [[some 1], [some 2], [some 3], [some 4]]
    [[some 2], [some 3], [some 4], [some 5]] [[1, 2, 3, 4]] (by rfl)

/-- Witness for C5: the column layout applied at a concrete call with one
target lag, one past covariate lag and one future covariate lag. -/
theorem claim5_witness :
    (⟨[0, 1, 2],
      [⟨"c", "target", -1⟩, ⟨"c", "past_cov", -2⟩, ⟨"c", "future_cov", 0⟩],
      [[none, none, some 0], [some 0, none, some 1], [some 1, some 0, some 2]]⟩ :
        DF ColTag).cols =
      ([-1] : List Int).flatMap (fun lag =>
          (tsFrame (mkSeries1 (vr 3))).cols.map (fun c => ⟨c, "target", lag⟩))
      ++ ([-2] : List Int).flatMap (fun lag =>
          (optColsOf (some (tsFrame (mkSeries1 (vr 3))))).map
            (fun c => ⟨c, "past_cov", lag⟩))
      ++ ([0] : List Int).flatMap (fun lag =>
          (optColsOf (some (tsFrame (mkSeries1 (vr 3))))).map
            (fun c => ⟨c, "future_cov", lag⟩)) :=
  claim5_column_layout ⟨1, [-1], [-2], [0], none, true, true⟩
    (tsFrame (mkSeries1 (vr 3))) (some (tsFrame (mkSeries1 (vr 3))))
    (some (tsFrame (mkSeries1 (vr 3)))) _ (by rfl)

/-- Witness for C6: the error characterization applied at a one-point series
whose only value is missing, which retains zero rows. -/
theorem claim6_witness :
    seriesResult spHorizon1 1 0 (tsFrame (mkSeries1 [none])) none none =
      .error (emptySamplesMsg 0 1) :=
  ((claim6_empty_sample_error.1 spHorizon1 1 0 (tsFrame (mkSeries1 [none])) none none
      ⟨[], [⟨"c", "target", -1⟩, ⟨"c", "horizon", 0⟩], []⟩ 1 rfl).1).mpr rfl
